import Mathlib

/-!
Verification development for the WebRunner deterministic core.

The definitions below are shallow embeddings of the TypeScript sources:
state model and differ (src/core/state/model.ts, src/core/state/diff.ts),
secret redaction (src/core/artifacts/redact.ts), selector resolution
(src/core/browser/selectors.ts), recovery helpers and detectors
(src/core/execute/recovery.ts), the step executor
(src/core/execute/executor.ts), the orchestrator patch loop
(src/core/index.ts) and macro parameterization
(src/core/cache/macroStore.ts).

Modelling conventions:
* JavaScript strings are modelled by Lean `String` (lists of unicode
  scalars); `length` is scalar count.
* JS `Map` is modelled by an association list with JS insertion
  semantics (`jsMapInsert`): setting an existing key overwrites the value
  in place, a fresh key is appended.
* JSON-like runtime values are modelled by the inductive `Json`;
  numbers are modelled as integers (no claim depends on fractional
  numbers).
* Asynchronous browser and LLM calls are modelled as oracles packaged in
  explicit environment structures; thrown exceptions are modelled with
  `Except` over the error taxonomy of src/core/errors.ts.
* Wall-clock fields (`durationMs`, timestamps) are not modelled.
-/

namespace WebRunner

/-! ## Character and string helpers (models of the JS string primitives used) -/

/-- Model of `a.isPrefixOf b` on character lists. -/
def charsPrefix : List Char → List Char → Bool
  | [], _ => true
  | _ :: _, [] => false
  | a :: as, b :: bs => a == b && charsPrefix as bs

/-- Substring test on character lists: does `sub` occur inside `hay`? -/
def charsContains (hay sub : List Char) : Bool :=
  match hay with
  | [] => sub.isEmpty
  | _ :: rest => charsPrefix sub hay || charsContains rest sub

/-- Model of JS `String.prototype.includes`. -/
def strContains (s sub : String) : Bool :=
  charsContains s.data sub.data

/-- ASCII lower-casing of one character (keys and labels in scope are ASCII;
model of JS `toLowerCase` restricted to ASCII). -/
def lowerChar (c : Char) : Char :=
  if 65 ≤ c.toNat && c.toNat ≤ 90 then Char.ofNat (c.toNat + 32) else c

/-- ASCII lower-casing of a string. -/
def lowerStr (s : String) : String :=
  ⟨s.data.map lowerChar⟩

/-! ## JS Map model (insertion-ordered association list) -/

/-- Model of JS `Map.prototype.set`: overwrite in place if the key exists,
append otherwise. -/
def jsMapInsert (m : List (String × α)) (k : String) (v : α) : List (String × α) :=
  if m.any (fun p => p.1 == k) then m.map (fun p => if p.1 == k then (k, v) else p)
  else m ++ [(k, v)]

/-- Build a JS `Map` from an entry list, later entries overwriting earlier
ones (model of `new Map(entries)`). -/
def jsMapOfList (l : List (String × α)) : List (String × α) :=
  l.foldl (fun m p => jsMapInsert m p.1 p.2) []

/-- Model of JS `Map.prototype.get` (returning `none` for a missing key). -/
def mapLookup (m : List (String × α)) (k : String) : Option α :=
  (m.find? (fun p => p.1 == k)).map (·.2)

/-- Keys of a JS map model. -/
def mapKeys (m : List (String × α)) : List String :=
  m.map (·.1)

/-! ## State model (src/core/state/model.ts) -/

/-- `SelectorSet` of src/core/browser/selectors.ts: one primary locator plus
ordered fallbacks. -/
structure SelectorSet where
  primary : String
  fallback : List String
deriving DecidableEq, Repr

/-- `InteractiveElement` of src/core/state/model.ts. The `role` union type is
modelled as a string (its runtime representation). -/
structure InteractiveElement where
  ref : String
  role : String
  label : String
  name : Option String
  inputType : Option String
  valuePresent : Bool
  disabled : Bool
  visible : Bool
  selectors : SelectorSet
  text : Option String
  href : Option String
deriving DecidableEq, Repr

/-- `StateMeta` of src/core/state/model.ts. -/
structure StateMeta where
  runId : String
  timestamp : String
  url : String
  title : String
deriving DecidableEq, Repr

/-- `PageSummary` of src/core/state/model.ts. -/
structure PageSummary where
  headings : List String
  forms : List String
  notices : List String
deriving DecidableEq, Repr

/-- `CompactState` of src/core/state/model.ts. -/
structure CompactState where
  meta : StateMeta
  pageSummary : PageSummary
  interactive : List InteractiveElement
deriving DecidableEq, Repr

/-- One side of a `changed` entry in `StateDiff`: the tracked fields
(`label`, `disabled`, `visible`, `valuePresent`, `text`, `href`) that
differ, each present iff it differed (model of the
`Partial<InteractiveElement>` records built in diff.ts). -/
structure ElementDelta where
  label : Option String
  disabled : Option Bool
  visible : Option Bool
  valuePresent : Option Bool
  text : Option (Option String)
  href : Option (Option String)
deriving DecidableEq, Repr

/-- A `changed` entry of `StateDiff`. -/
structure ChangedEntry where
  ref : String
  before : ElementDelta
  after : ElementDelta
deriving DecidableEq, Repr

/-- `StateDiff` of src/core/state/model.ts. -/
structure StateDiff where
  added : List InteractiveElement
  removed : List InteractiveElement
  changed : List ChangedEntry
deriving DecidableEq, Repr

/-! ## Differ (src/core/state/diff.ts) -/

/-- `indexByRef` of diff.ts: `new Map(elements.map(el => [el.ref, el]))`. -/
def indexByRef (elements : List InteractiveElement) : List (String × InteractiveElement) :=
  jsMapOfList (elements.map (fun el => (el.ref, el)))

/-- All-fields-absent delta check (`Object.keys(bDiff).length === 0`). -/
def ElementDelta.isEmpty (d : ElementDelta) : Bool :=
  d.label.isNone && d.disabled.isNone && d.visible.isNone &&
  d.valuePresent.isNone && d.text.isNone && d.href.isNone

/-- `changed` of diff.ts: compare the fixed tracked-field set of two
elements, returning the before/after deltas over the differing fields, or
`none` when no tracked field differs. -/
def changedFields (before after : InteractiveElement) :
    Option (ElementDelta × ElementDelta) :=
  let bDiff : ElementDelta :=
    { label := if before.label != after.label then some before.label else none
      disabled := if before.disabled != after.disabled then some before.disabled else none
      visible := if before.visible != after.visible then some before.visible else none
      valuePresent := if before.valuePresent != after.valuePresent then some before.valuePresent else none
      text := if before.text != after.text then some before.text else none
      href := if before.href != after.href then some before.href else none }
  let aDiff : ElementDelta :=
    { label := if before.label != after.label then some after.label else none
      disabled := if before.disabled != after.disabled then some after.disabled else none
      visible := if before.visible != after.visible then some after.visible else none
      valuePresent := if before.valuePresent != after.valuePresent then some after.valuePresent else none
      text := if before.text != after.text then some after.text else none
      href := if before.href != after.href then some after.href else none }
  if bDiff.isEmpty then none else some (bDiff, aDiff)

/-- `diffStates` of diff.ts: index both snapshots by ref; a ref only in
`curr` is added, only in `prev` is removed; a ref in both contributes a
changed entry iff a tracked field differs. -/
def diffStates (prev curr : CompactState) : StateDiff :=
  let prevMap := indexByRef prev.interactive
  let currMap := indexByRef curr.interactive
  let added := (currMap.filter (fun p => (mapLookup prevMap p.1).isNone)).map (·.2)
  let changedList := currMap.filterMap (fun p =>
    match mapLookup prevMap p.1 with
    | none => none
    | some prevEl =>
      (changedFields prevEl p.2).map (fun d => ChangedEntry.mk p.1 d.1 d.2))
  let removed := (prevMap.filter (fun p => (mapLookup currMap p.1).isNone)).map (·.2)
  { added := added, removed := removed, changed := changedList }

/-! ## JSON-like runtime values (for redaction and macro templating) -/

/-- JSON-like runtime value (the `unknown` values flowing through
redaction and `JSON.stringify`/`JSON.parse`); numbers are modelled as
integers. -/
inductive Json where
  | null : Json
  | bool (b : Bool) : Json
  | num (n : Int) : Json
  | str (s : String) : Json
  | arr (items : List Json) : Json
  | obj (fields : List (String × Json)) : Json

/-- Is this value a JS string (`typeof val === 'string'`)? -/
def Json.isStr : Json → Bool
  | .str _ => true
  | _ => false

/-! ## Secret redaction (src/core/artifacts/redact.ts) -/

/-- `SECRET_KEY_PATTERNS` of redact.ts. Each case-insensitive regex
`/pat/i` is modelled as a predicate on the lower-cased key; `[_-]?`
alternation is expanded into the three concrete spellings it accepts. -/
def secretKeyPatterns : List (String → Bool) :=
  [ fun k => strContains (lowerStr k) "password",
    fun k => strContains (lowerStr k) "passwd",
    fun k => strContains (lowerStr k) "secret",
    fun k => strContains (lowerStr k) "token",
    fun k => strContains (lowerStr k) "apikey" || strContains (lowerStr k) "api_key" ||
      strContains (lowerStr k) "api-key",
    fun k => strContains (lowerStr k) "otp",
    fun k => strContains (lowerStr k) "auth",
    fun k => strContains (lowerStr k) "credential",
    fun k => strContains (lowerStr k) "privatekey" || strContains (lowerStr k) "private_key" ||
      strContains (lowerStr k) "private-key",
    fun k => strContains (lowerStr k) "accesskey" || strContains (lowerStr k) "access_key" ||
      strContains (lowerStr k) "access-key" ]

/-- `isSecretKey` of redact.ts: `patterns.some(p => p.test(key))`. -/
def isSecretKey (key : String) (patterns : List (String → Bool)) : Bool :=
  patterns.any (fun p => p key)

/-- The replacement marker `[REDACTED:${val.length}]` of redact.ts. -/
def redactedMarker (n : Nat) : String :=
  "[REDACTED:" ++ toString n ++ "]"

mutual

/-- `redactSecrets` of redact.ts: recurse over arrays and objects; inside
an object, an allow-listed key keeps its value, a secret-named key with a
string value is replaced by a length marker, and every other value is
recursed into. Scalars are returned unchanged. -/
def redactSecrets (allowlist : List String) (patterns : List (String → Bool)) :
    Json → Json
  | .null => .null
  | .bool b => .bool b
  | .num n => .num n
  | .str s => .str s
  | .arr items => .arr (redactItems allowlist patterns items)
  | .obj fields => .obj (redactFields allowlist patterns fields)

/-- The `value.map(item => redactSecrets(item, …))` loop of redact.ts. -/
def redactItems (allowlist : List String) (patterns : List (String → Bool)) :
    List Json → List Json
  | [] => []
  | item :: rest =>
    redactSecrets allowlist patterns item :: redactItems allowlist patterns rest

/-- The `Object.entries` loop of redact.ts. -/
def redactFields (allowlist : List String) (patterns : List (String → Bool)) :
    List (String × Json) → List (String × Json)
  | [] => []
  | (k, v) :: rest =>
    (if allowlist.contains k then (k, v)
     else if isSecretKey k patterns && v.isStr then
       (k, .str (redactedMarker (match v with | .str s => s.length | _ => 0)))
     else (k, redactSecrets allowlist patterns v)) :: redactFields allowlist patterns rest

end

/-! ## Error taxonomy (src/core/errors.ts) -/

/-- The `WebRunnerError` subclasses of src/core/errors.ts, with their
payloads where a claim depends on them. -/
inductive WErr where
  | captchaDetected : WErr
  | twoFADetected : WErr
  | loginFailed : WErr
  | elementMissing (ref : String) : WErr
  | navigationFailed (url : String) : WErr
  | assertionFailed : WErr
  | timeoutErr : WErr
  | schemaValidation : WErr
  | llmError : WErr
deriving DecidableEq, Repr

/-- The `recoverable` flag each subclass constructor passes to
`WebRunnerError` in errors.ts. -/
def WErr.recoverable : WErr → Bool
  | .captchaDetected => false
  | .twoFADetected => false
  | .loginFailed => false
  | .elementMissing _ => true
  | .navigationFailed _ => true
  | .assertionFailed => true
  | .timeoutErr => true
  | .schemaValidation => false
  | .llmError => true

/-- The executor's escalation test
`err instanceof CaptchaDetected || err instanceof TwoFADetected`
(executor.ts). -/
def WErr.stepEscalatable : WErr → Bool
  | .captchaDetected => true
  | .twoFADetected => true
  | _ => false

/-- Is this error an `ElementMissing` (the executor's
`err instanceof ElementMissing` test)? -/
def WErr.isElementMissing : WErr → Bool
  | .elementMissing _ => true
  | _ => false

/-! ## Selector resolution (src/core/browser/selectors.ts) -/

/-- Outcome of probing one selector candidate inside `trySelectors`:
`page.$` (or the subsequent `isVisible`) threw and was swallowed, the
selector matched nothing, or it matched a live element handle (with the
visibility the code computes and then ignores). -/
inductive QueryOutcome where
  | thrown : QueryOutcome
  | missing : QueryOutcome
  | found (handle : Nat) (visible : Bool) : QueryOutcome
deriving DecidableEq, Repr

/-- Did the probe return a live element? -/
def QueryOutcome.isFound : QueryOutcome → Bool
  | .found _ _ => true
  | _ => false

/-- The candidate loop of `trySelectors`: return the first selector whose
probe found a live element, paired with the handle. -/
def firstMatch (q : String → QueryOutcome) : List String → Option (String × Nat)
  | [] => none
  | sel :: rest =>
    match q sel with
    | .found h _ => some (sel, h)
    | _ => firstMatch q rest

/-- `trySelectors` of selectors.ts: attempt `[primary, ...fallback]` in
order against the page probe `q`; throw `ElementMissing` carrying the whole
attempt list only after exhausting it. -/
def trySelectors (q : String → QueryOutcome) (selectorSet : SelectorSet) :
    Except (List String) (String × Nat) :=
  let attempts := selectorSet.primary :: selectorSet.fallback
  match firstMatch q attempts with
  | some r => .ok r
  | none => .error attempts

/-! ## Recovery helpers (src/core/execute/recovery.ts) -/

/-- The optional `hint` parameter of `fuzzyRefResolve`. -/
structure FuzzyHint where
  label : Option String
  role : Option String
deriving DecidableEq, Repr

/-- `fuzzyRefResolve` of recovery.ts: with no hint return `undefined`;
otherwise filter the snapshot's elements by the role hint and by
case-insensitive label containment (in either direction) and return the
first candidate. -/
def fuzzyRefResolve (missingRef : String) (currentState : CompactState)
    (hint : Option FuzzyHint) : Option InteractiveElement :=
  match hint with
  | none => none
  | some h =>
    (currentState.interactive.filter (fun el =>
      (match h.role with
       | some r => el.role == r
       | none => true) &&
      (match h.label with
       | some lb =>
         strContains (lowerStr el.label) (lowerStr lb) ||
           strContains (lowerStr lb) (lowerStr el.label)
       | none => true))).head?

/-! ## Step executor (src/core/execute/executor.ts) -/

/-- `Step` of src/core/planning/schemas.ts. The `op` field is a string at
runtime (the schema's enum is validated upstream, and the executor still
carries a default branch), so it is modelled as `String`. -/
structure Step where
  id : String
  op : String
  url : Option String
  ref : Option String
  text : Option String
  value : Option String
  kind : Option String
  timeoutMs : Option Nat
  out : Option String
  direction : Option String
  amount : Option Nat
deriving DecidableEq, Repr

/-- `Plan` of src/core/planning/schemas.ts (the fields the executor
reads). -/
structure Plan where
  goal : String
  steps : List Step
deriving DecidableEq, Repr

/-- Status of a `StepResult` (executor.ts declares
`'success' | 'skipped' | 'failed'`). -/
inductive WStatus where
  | success : WStatus
  | skipped : WStatus
  | failed : WStatus
deriving DecidableEq, Repr

/-- `StepResult` of executor.ts. The `error` field keeps the thrown error
value instead of its message string; `durationMs` is wall-clock and not
modelled. -/
structure StepResult where
  id : String
  op : String
  status : WStatus
  selectorUsed : Option String
  error : Option WErr
deriving DecidableEq, Repr

/-- Observable side-effect events of one execution pass: the two recovery
helpers (`handleCookieBanner`, `dismissModal`) and the dispatch of a
browser action for the step at a given index. -/
inductive Action where
  | cookieBanner : Action
  | dismissModal : Action
  | dispatch (index : Nat) : Action
deriving DecidableEq, Repr

/-- Environment of one execution pass: the outcome of every external
(awaited) browser interaction, indexed by the position of the step in the
plan. `snapshot i` is the `collectState` result taken after step `i`
succeeds (`none` models a swallowed capture failure). -/
structure ExecEnv where
  captcha : Nat → Bool
  twoFA : Nat → Bool
  navigate : Nat → String → Except WErr Unit
  click : Nat → SelectorSet → Except WErr String
  typeText : Nat → SelectorSet → String → Except WErr String
  selectOpt : Nat → SelectorSet → String → Except WErr String
  waitFor : Nat → Except WErr Unit
  screenshot : Nat → Except WErr Unit
  scroll : Nat → Except WErr Unit
  extract : Nat → Except WErr String
  snapshot : Nat → Option CompactState

/-- `resolveRef` of executor.ts: an absent `step.ref` throws
`ElementMissing('(undefined ref)')`; a ref present in the snapshot
resolves to its element; otherwise fuzzy resolution is attempted — with no
hint, exactly as the production call site invokes it — and failure throws
`ElementMissing(ref)`. -/
def resolveRef (ref : Option String) (state : CompactState) :
    Except WErr InteractiveElement :=
  match ref with
  | none => .error (.elementMissing "(undefined ref)")
  | some r =>
    match state.interactive.find? (fun e => e.ref == r) with
    | some el => .ok el
    | none =>
      match fuzzyRefResolve r state none with
      | some el => .ok el
      | none => .error (.elementMissing r)

/-- `executeStep` of executor.ts: dispatch one step to the browser
capability, resolving the step's element reference first where the op
needs one. The returned action list records whether a browser action was
dispatched at index `i`; an unknown op logs a warning and returns without
dispatching. -/
def executeStep (env : ExecEnv) (i : Nat) (step : Step) (state : CompactState) :
    Except WErr (Option String) × List Action :=
  if step.op == "navigate" then
    match step.url with
    | none => (.error (.navigationFailed "(missing url)"), [])
    | some u =>
      match env.navigate i u with
      | .ok _ => (.ok none, [.dispatch i])
      | .error e => (.error e, [.dispatch i])
  else if step.op == "click" then
    match resolveRef step.ref state with
    | .error e => (.error e, [])
    | .ok el =>
      match env.click i el.selectors with
      | .ok sel => (.ok (some sel), [.dispatch i])
      | .error e => (.error e, [.dispatch i])
  else if step.op == "type" then
    match resolveRef step.ref state with
    | .error e => (.error e, [])
    | .ok el =>
      match env.typeText i el.selectors (step.text.getD "") with
      | .ok _ => (.ok none, [.dispatch i])
      | .error e => (.error e, [.dispatch i])
  else if step.op == "select" then
    match resolveRef step.ref state with
    | .error e => (.error e, [])
    | .ok el =>
      match env.selectOpt i el.selectors (step.value.getD "") with
      | .ok sel => (.ok (some sel), [.dispatch i])
      | .error e => (.error e, [.dispatch i])
  else if step.op == "waitFor" then
    match env.waitFor i with
    | .ok _ => (.ok none, [.dispatch i])
    | .error e => (.error e, [.dispatch i])
  else if step.op == "screenshot" then
    match env.screenshot i with
    | .ok _ => (.ok none, [.dispatch i])
    | .error e => (.error e, [.dispatch i])
  else if step.op == "scroll" then
    match env.scroll i with
    | .ok _ => (.ok none, [.dispatch i])
    | .error e => (.error e, [.dispatch i])
  else if step.op == "extract" then
    match env.extract i with
    | .ok _ => (.ok none, [.dispatch i])
    | .error e => (.error e, [.dispatch i])
  else
    (.ok none, [])

/-- The step loop of `executePlan` (executor.ts): before each step the
CAPTCHA and 2FA detectors run and either firing throws; a successful step
is recorded and a fresh snapshot is captured (capture failure keeps the
prior snapshot); any thrown error is recorded as a failed result and ends
the loop — after one cookie-banner/modal recovery attempt when the error
is a recoverable `ElementMissing`. -/
def execSteps (env : ExecEnv) :
    List Step → Nat → CompactState → List StepResult → List Action →
    List StepResult × List Action
  | [], _, _, acc, log => (acc, log)
  | step :: rest, i, state, acc, log =>
    let r : Except WErr (Option String) × List Action :=
      if env.captcha i then (.error .captchaDetected, [])
      else if env.twoFA i then (.error .twoFADetected, [])
      else executeStep env i step state
    match r with
    | (.ok sel, acts) =>
      let state' := (env.snapshot i).getD state
      execSteps env rest (i + 1) state'
        (acc ++ [{ id := step.id, op := step.op, status := .success,
                   selectorUsed := sel, error := none }])
        (log ++ acts)
    | (.error e, acts) =>
      let acc' := acc ++ [{ id := step.id, op := step.op, status := .failed,
                            selectorUsed := none, error := some e }]
      let log' := log ++ acts
      if e.stepEscalatable || !e.recoverable then (acc', log')
      else if e.isElementMissing then (acc', log' ++ [.cookieBanner, .dismissModal])
      else (acc', log')

/-- `executePlan` of executor.ts restricted to its step-processing part:
the pre-run cookie-banner and modal dismissal followed by the step loop.
(The subsequent assertion pass and run-log sealing do not influence the
step results or the halting behaviour the claims are about.) -/
def executePlan (env : ExecEnv) (plan : Plan) (currentState : CompactState) :
    List StepResult × List Action :=
  execSteps env plan.steps 0 currentState [] [.cookieBanner, .dismissModal]

/-! ## Orchestrator patch loop (src/core/index.ts) -/

/-- `Verdict.status` values (src/core/planning/schemas.ts). -/
inductive VerdictStatus where
  | success : VerdictStatus
  | patch : VerdictStatus
  | escalate : VerdictStatus
deriving DecidableEq, Repr

/-- `Verdict` of src/core/planning/schemas.ts (the fields the loop
reads). -/
structure Verdict where
  status : VerdictStatus
  summary : String
deriving DecidableEq, Repr

/-- The patch loop of `runTask` (index.ts, STEP 6): while the verdict is
`patch` and the round counter is below `maxPatchRounds`, increment the
counter and replace the verdict by the one the oracle produces for that
round (`next k` abstracts the patch-plan request, its execution,
re-observation and re-verification of round `k`). Returns the final
verdict together with the final round counter. -/
def patchLoop (maxPatchRounds : Nat) (next : Nat → Verdict)
    (verdict : Verdict) (patchRound : Nat) : Verdict × Nat :=
  if h : verdict.status = .patch ∧ patchRound < maxPatchRounds then
    patchLoop maxPatchRounds next (next (patchRound + 1)) (patchRound + 1)
  else (verdict, patchRound)
termination_by maxPatchRounds - patchRound
decreasing_by omega

/-! ## JSON serialization (model of `JSON.stringify` with no spacing) -/

/-- Hex digit character (lower case), as produced by the `\u00xx` escapes
of `JSON.stringify`. -/
def hexDigit (n : Nat) : Char :=
  if n < 10 then Char.ofNat (48 + n) else Char.ofNat (87 + n)

/-- Escaping of one character inside a JSON string literal, following
`JSON.stringify`: quote, backslash and the named control characters get a
two-character escape, other control characters get `\u00xx`, everything
else is emitted literally. -/
def escapeChar (c : Char) : List Char :=
  if c == '"' then ['\\', '"']
  else if c == '\\' then ['\\', '\\']
  else if c == '\n' then ['\\', 'n']
  else if c == '\t' then ['\\', 't']
  else if c == '\r' then ['\\', 'r']
  else if c.toNat == 8 then ['\\', 'b']
  else if c.toNat == 12 then ['\\', 'f']
  else if c.toNat < 32 then
    ['\\', 'u', '0', '0', hexDigit (c.toNat / 16), hexDigit (c.toNat % 16)]
  else [c]

/-- A quoted, escaped JSON string literal. -/
def quoteChars (s : String) : List Char :=
  '"' :: (s.data.map escapeChar).flatten ++ ['"']

/-- Decimal digits of a natural number (helper for number
serialization); the fuel argument only drives termination. -/
def natToCharsAux : Nat → Nat → List Char
  | 0, _ => []
  | fuel + 1, n =>
    if n < 10 then [Char.ofNat (48 + n)]
    else natToCharsAux fuel (n / 10) ++ [Char.ofNat (48 + n % 10)]

/-- Decimal representation of a natural number. -/
def natToChars (n : Nat) : List Char :=
  natToCharsAux (n + 1) n

/-- Decimal representation of an integer (model of JS number-to-string for
integral values). -/
def intToChars (n : Int) : List Char :=
  if n < 0 then '-' :: natToChars n.natAbs else natToChars n.toNat

mutual

/-- `JSON.stringify(value)` (no indentation argument, hence no
whitespace), producing the serialized character list. -/
def stringifyChars : Json → List Char
  | .null => 'n' :: 'u' :: 'l' :: 'l' :: []
  | .bool true => 't' :: 'r' :: 'u' :: 'e' :: []
  | .bool false => 'f' :: 'a' :: 'l' :: 's' :: 'e' :: []
  | .num n => intToChars n
  | .str s => quoteChars s
  | .arr items => '[' :: stringifyItems items ++ [']']
  | .obj fields => '\x7b' :: stringifyFields fields ++ ['\x7d']

/-- Comma-separated serialization of array items. -/
def stringifyItems : List Json → List Char
  | [] => []
  | [item] => stringifyChars item
  | item :: rest => stringifyChars item ++ ',' :: stringifyItems rest

/-- Comma-separated serialization of object entries
(`"key":value` pairs). -/
def stringifyFields : List (String × Json) → List Char
  | [] => []
  | [(k, v)] => quoteChars k ++ ':' :: stringifyChars v
  | (k, v) :: rest => quoteChars k ++ ':' :: stringifyChars v ++ ',' :: stringifyFields rest

end

/-! ## JSON parsing (model of `JSON.parse`) -/

/-- JSON whitespace. -/
def jsonWs (c : Char) : Bool :=
  c == ' ' || c == '\t' || c == '\n' || c == '\r'

/-- Skip leading JSON whitespace. -/
def skipWs : List Char → List Char
  | [] => []
  | c :: rest => if jsonWs c then skipWs rest else c :: rest

/-- Value of one hex digit, if any. -/
def hexVal (c : Char) : Option Nat :=
  if 48 ≤ c.toNat && c.toNat ≤ 57 then some (c.toNat - 48)
  else if 97 ≤ c.toNat && c.toNat ≤ 102 then some (c.toNat - 87)
  else if 65 ≤ c.toNat && c.toNat ≤ 70 then some (c.toNat - 55)
  else none

/-- Single-character JSON escapes (escape letter paired with the decoded
character). -/
def unescapeChar (c : Char) : Option Char :=
  List.lookup c
    [('"', '"'), ('\\', '\\'), ('/', '/'), ('b', Char.ofNat 8),
     ('f', Char.ofNat 12), ('n', '\n'), ('r', '\r'), ('t', '\t')]

/-- Body of a JSON string literal (after the opening quote): consume
characters until the closing quote, decoding escapes; `acc` holds the
decoded characters in reverse. -/
def parseStringBody : List Char → List Char → Option (String × List Char)
  | [], _ => none
  | c :: rest, acc =>
    if c == '"' then some (⟨acc.reverse⟩, rest)
    else if c == '\\' then
      match rest with
      | [] => none
      | e :: rest2 =>
        if e == 'u' then
          match rest2 with
          | h1 :: h2 :: h3 :: h4 :: rest3 =>
            match hexVal h1, hexVal h2, hexVal h3, hexVal h4 with
            | some a, some b, some c2, some d =>
              parseStringBody rest3 (Char.ofNat (((a * 16 + b) * 16 + c2) * 16 + d) :: acc)
            | _, _, _, _ => none
          | _ => none
        else
          match unescapeChar e with
          | some u => parseStringBody rest2 (u :: acc)
          | none => none
    else parseStringBody rest (c :: acc)

/-- Is this an ASCII decimal digit? -/
def isDigitChar (c : Char) : Bool :=
  48 ≤ c.toNat && c.toNat ≤ 57

/-- Take the maximal leading run of decimal digits. -/
def takeDigits : List Char → List Char × List Char
  | [] => ([], [])
  | c :: rest =>
    if isDigitChar c then
      let p := takeDigits rest
      (c :: p.1, p.2)
    else ([], c :: rest)

/-- Numeric value of a digit run. -/
def digitsToNat (l : List Char) : Nat :=
  l.foldl (fun a c => a * 10 + (c.toNat - 48)) 0

/-- Fixed sequence of expected characters (for the `null`/`true`/`false`
literals). -/
def expectChars : List Char → List Char → Option (List Char)
  | [], rest => some rest
  | e :: es, c :: rest => if c == e then expectChars es rest else none
  | _ :: _, [] => none

mutual

/-- One JSON value (recursive-descent model of `JSON.parse`); the fuel
argument only drives termination and is chosen large enough at the entry
point. Returns the value and the unconsumed input. -/
def parseValue : Nat → List Char → Option (Json × List Char)
  | 0, _ => none
  | fuel + 1, cs =>
    match skipWs cs with
    | [] => none
    | c :: rest =>
      if c == 'n' then (expectChars ['u', 'l', 'l'] rest).map (fun r => (Json.null, r))
      else if c == 't' then (expectChars ['r', 'u', 'e'] rest).map (fun r => (Json.bool true, r))
      else if c == 'f' then (expectChars ['a', 'l', 's', 'e'] rest).map (fun r => (Json.bool false, r))
      else if c == '"' then (parseStringBody rest []).map (fun p => (Json.str p.1, p.2))
      else if c == '[' then
        match skipWs rest with
        | [] => none
        | c2 :: rest2 =>
          if c2 == ']' then some (Json.arr [], rest2)
          else (parseItems fuel (c2 :: rest2)).map (fun p => (Json.arr p.1, p.2))
      else if c == '\x7b' then
        match skipWs rest with
        | [] => none
        | c2 :: rest2 =>
          if c2 == '\x7d' then some (Json.obj [], rest2)
          else (parseFields fuel (c2 :: rest2)).map
            (fun p => (Json.obj (jsMapOfList p.1), p.2))
      else if c == '-' then
        match takeDigits rest with
        | ([], _) => none
        | (ds, rest2) => some (Json.num (-(digitsToNat ds : Int)), rest2)
      else if isDigitChar c then
        match takeDigits (c :: rest) with
        | (ds, rest2) => some (Json.num (digitsToNat ds : Int), rest2)
      else none

/-- Comma-separated array items, consuming the closing bracket. -/
def parseItems : Nat → List Char → Option (List Json × List Char)
  | 0, _ => none
  | fuel + 1, cs =>
    match parseValue fuel cs with
    | none => none
    | some (j, rest) =>
      match skipWs rest with
      | [] => none
      | c :: rest2 =>
        if c == ',' then (parseItems fuel rest2).map (fun p => (j :: p.1, p.2))
        else if c == ']' then some ([j], rest2)
        else none

/-- Comma-separated object entries, consuming the closing brace. The
caller rebuilds the object with `jsMapOfList`, matching the JS object
semantics of duplicate keys (last value wins, first position kept). -/
def parseFields : Nat → List Char → Option (List (String × Json) × List Char)
  | 0, _ => none
  | fuel + 1, cs =>
    match skipWs cs with
    | [] => none
    | c :: rest =>
      if c == '"' then
        match parseStringBody rest [] with
        | none => none
        | some (k, rest1) =>
          match skipWs rest1 with
          | [] => none
          | c2 :: rest2 =>
            if c2 == ':' then
              match parseValue fuel rest2 with
              | none => none
              | some (v, rest3) =>
                match skipWs rest3 with
                | [] => none
                | c3 :: rest4 =>
                  if c3 == ',' then
                    (parseFields fuel rest4).map (fun p => ((k, v) :: p.1, p.2))
                  else if c3 == '\x7d' then some ([(k, v)], rest4)
                  else none
            else none
      else none

end

/-- `JSON.parse(text)`: parse one value and require only trailing
whitespace after it. The fuel bound is sufficient for any input whose
parse succeeds at all. -/
def parseJson (s : String) : Option Json :=
  match parseValue (2 * s.data.length + 2) s.data with
  | some (j, rest) => if skipWs rest = [] then some j else none
  | none => none

/-! ## Macro parameterization (src/core/cache/macroStore.ts) -/

/-- Word characters of the regex `\w`. -/
def isWordChar (c : Char) : Bool :=
  (48 ≤ c.toNat && c.toNat ≤ 57) || (65 ≤ c.toNat && c.toNat ≤ 90) ||
  (97 ≤ c.toNat && c.toNat ≤ 122) || c == '_'

/-- Maximal leading run of word characters. -/
def takeWord : List Char → List Char × List Char
  | [] => ([], [])
  | c :: rest =>
    if isWordChar c then
      let p := takeWord rest
      (c :: p.1, p.2)
    else ([], c :: rest)

/-- Length bound used for the termination of `substChars`. -/
theorem takeWord_snd_length (l : List Char) : (takeWord l).2.length ≤ l.length := by
  induction l with
  | nil => simp [takeWord]
  | cons c rest ih =>
    simp only [takeWord]
    by_cases h : isWordChar c = true
    · simp [h]; omega
    · simp [h]

/-- The global regex replace
`planStr.replace(/\x7b(\w+)\x7d/g, (_, key) => params[key] ?? ...)` of
`MacroStore.applyParams`: scan left to right; at an opening brace followed
by a non-empty word and a closing brace, emit the looked-up value (or the
token verbatim when the lookup misses) and continue after the token;
otherwise copy one character. Replacement text is not rescanned. -/
def substChars (lookup : String → Option String) : List Char → List Char
  | [] => []
  | c :: rest =>
    if c == '\x7b' then
      let p := takeWord rest
      if h : (decide (p.2.head? = some '\x7d') && !p.1.isEmpty) = true then
        (match lookup ⟨p.1⟩ with
         | some v => v.data
         | none => '\x7b' :: p.1 ++ ['\x7d']) ++ substChars lookup p.2.tail
      else c :: substChars lookup rest
    else c :: substChars lookup rest
termination_by l => l.length
decreasing_by
  · simp only [Bool.and_eq_true, decide_eq_true_eq] at h
    have h2 := takeWord_snd_length rest
    rcases h with ⟨hh, _⟩
    cases hp : (takeWord rest).2 with
    | nil => rw [hp] at hh; simp at hh
    | cons a b =>
      rw [hp] at h2
      simp at h2 ⊢
      omega
  · simp
  · simp

/-- Record lookup in a `Record<string, string>` parameter map. -/
def paramsLookup (params : List (String × String)) (key : String) : Option String :=
  mapLookup params key

/-- `MacroStore.applyParams` of macroStore.ts: serialize the plan,
substitute `\x7bparamName\x7d` tokens textually, and re-parse the result
(the stored plan is its JSON value; a `JSON.parse` failure — possible when
a substituted value breaks the syntax — is modelled by `none`). -/
def applyParams (params : List (String × String)) (plan : Json) : Option Json :=
  parseJson ⟨substChars (paramsLookup params) (stringifyChars plan)⟩

/-- Key list is duplicate-free. -/
def nodupKeysFields : List String → Bool
  | [] => true
  | k :: rest => !(rest.contains k) && nodupKeysFields rest

mutual

/-- Every object of the value has pairwise distinct keys (an invariant of
every value produced by `JSON.parse`, hence of every stored plan). -/
def nodupKeysB : Json → Bool
  | .null => true
  | .bool _ => true
  | .num _ => true
  | .str _ => true
  | .arr items => nodupKeysItems items
  | .obj fields => nodupKeysFields (mapKeys fields) && nodupKeysEntries fields

/-- All values of an object satisfy `nodupKeysB`. -/
def nodupKeysEntries : List (String × Json) → Bool
  | [] => true
  | (_, v) :: rest => nodupKeysB v && nodupKeysEntries rest

/-- All items of an array satisfy `nodupKeysB`. -/
def nodupKeysItems : List Json → Bool
  | [] => true
  | item :: rest => nodupKeysB item && nodupKeysItems rest

end

mutual

/-- Structural size of a JSON value (proof measure relating the parser
fuel to the serialized value). -/
def jsize : Json → Nat
  | .null => 1
  | .bool _ => 1
  | .num _ => 1
  | .str _ => 1
  | .arr items => 1 + jsizeItems items
  | .obj fields => 1 + jsizeFields fields

/-- Size of an array's items. -/
def jsizeItems : List Json → Nat
  | [] => 0
  | item :: rest => 1 + jsize item + jsizeItems rest

/-- Size of an object's entries. -/
def jsizeFields : List (String × Json) → Nat
  | [] => 0
  | (_, v) :: rest => 1 + jsize v + jsizeFields rest

end

/-! ## Concrete fixtures (used by witnesses) -/

/-- The eight `stepOps` of src/core/planning/schemas.ts. -/
def knownOps : List String :=
  ["navigate", "click", "type", "select", "waitFor", "extract", "screenshot", "scroll"]

/-- A snapshot with no interactive elements. -/
def emptyState : CompactState :=
  { meta := { runId := "run-1", timestamp := "t0", url := "about:blank", title := "" },
    pageSummary := { headings := [], forms := [], notices := [] },
    interactive := [] }

/-- An environment where no detector fires and every browser action
succeeds. -/
def envQuiet : ExecEnv :=
  { captcha := fun _ => false
    twoFA := fun _ => false
    navigate := fun _ _ => .ok ()
    click := fun _ _ => .ok "sel"
    typeText := fun _ _ _ => .ok "sel"
    selectOpt := fun _ _ _ => .ok "sel"
    waitFor := fun _ => .ok ()
    screenshot := fun _ => .ok ()
    scroll := fun _ => .ok ()
    extract := fun _ => .ok ""
    snapshot := fun _ => none }

/-- `envQuiet` with the CAPTCHA detector firing at every step. -/
def envCaptcha : ExecEnv :=
  { envQuiet with captcha := fun _ => true }

/-- `envQuiet` with the 2FA detector firing at every step. -/
def envTwoFA : ExecEnv :=
  { envQuiet with twoFA := fun _ => true }

/-- A click step whose ref `E9` is absent from `emptyState`. -/
def clickStepE9 : Step :=
  { id := "s1", op := "click", url := none, ref := some "E9", text := none,
    value := none, kind := none, timeoutMs := none, out := none,
    direction := none, amount := none }

/-- A screenshot step (used as the never-reached follow-up step). -/
def screenshotStep : Step :=
  { id := "s2", op := "screenshot", url := none, ref := none, text := none,
    value := none, kind := none, timeoutMs := none, out := none,
    direction := none, amount := none }

/-- A step with an op outside the eight known operations. -/
def unknownOpStep : Step :=
  { id := "s9", op := "frobnicate", url := none, ref := none, text := none,
    value := none, kind := none, timeoutMs := none, out := none,
    direction := none, amount := none }

/-- Plan whose first step clicks a missing ref and whose second step would
take a screenshot. -/
def planClickMissing : Plan :=
  { goal := "demo", steps := [clickStepE9, screenshotStep] }

/-- Plan with one unknown-op step. -/
def planUnknownOp : Plan :=
  { goal := "demo", steps := [unknownOpStep] }

/-- A `patch` verdict. -/
def vPatch : Verdict := { status := .patch, summary := "needs patch" }

/-- An `escalate` verdict. -/
def vEscalate : Verdict := { status := .escalate, summary := "stuck" }

/-- Round oracle answering `escalate` at round 1 and `success` later. -/
def nextEscalateAt1 : Nat → Verdict :=
  fun k => if k == 1 then vEscalate else { status := .success, summary := "done" }

/-- A small placeholder-free stored plan (its JSON value). -/
def samplePlan : Json :=
  Json.obj [("goal", Json.str "demo"),
            ("steps", Json.arr [Json.obj
              [("id", Json.str "s1"), ("op", Json.str "navigate"),
               ("url", Json.str "https://example.com")]])]

/-! ## Lemmas about the JS map model -/

/-- Keys of the map after a JS `Map.set`. -/
theorem mapKeys_jsMapInsert (m : List (String × α)) (k : String) (v : α) :
    mapKeys (jsMapInsert m k v) =
      if m.any (fun p => p.1 == k) then mapKeys m else mapKeys m ++ [k] := by
  by_cases h : m.any (fun p => p.1 == k) = true
  · simp only [jsMapInsert, mapKeys, h, if_true, List.map_map]
    apply List.map_congr_left
    intro p _
    by_cases hpk : (p.1 == k) = true
    · have : p.1 = k := by simpa using hpk
      simp [hpk, this]
    · have : ¬p.1 = k := by simpa using hpk
      simp [hpk, this]
  · simp [jsMapInsert, mapKeys, h]

/-- Keys stay duplicate-free under a JS `Map.set`. -/
theorem nodup_mapKeys_jsMapInsert (m : List (String × α)) (k : String) (v : α)
    (h : (mapKeys m).Nodup) : (mapKeys (jsMapInsert m k v)).Nodup := by
  rw [mapKeys_jsMapInsert]
  by_cases hany : m.any (fun p => p.1 == k) = true
  · simpa [hany] using h
  · have hk : k ∉ mapKeys m := by
      intro hmem
      apply hany
      rw [List.any_eq_true]
      obtain ⟨p, hp, hp1⟩ := List.mem_map.mp hmem
      exact ⟨p, hp, by simp [hp1]⟩
    simp only [hany, if_false]
    simpa [List.nodup_append] using ⟨h, hk⟩

/-- Maps built with `jsMapOfList` have duplicate-free keys. -/
theorem nodup_mapKeys_jsMapOfList (l : List (String × α)) :
    (mapKeys (jsMapOfList l)).Nodup := by
  have general : ∀ (l : List (String × α)) (acc : List (String × α)),
      (mapKeys acc).Nodup →
      (mapKeys (l.foldl (fun m p => jsMapInsert m p.1 p.2) acc)).Nodup := by
    intro l
    induction l with
    | nil => intro acc h; simpa using h
    | cons p rest ih =>
      intro acc h
      exact ih _ (nodup_mapKeys_jsMapInsert acc p.1 p.2 h)
  simpa [jsMapOfList, mapKeys] using general l [] (by simp [mapKeys])

/-- With duplicate-free keys, looking up the key of an entry returns that
entry's value. -/
theorem mapLookup_of_mem (m : List (String × α)) (k : String) (v : α)
    (hnd : (mapKeys m).Nodup) (hmem : (k, v) ∈ m) : mapLookup m k = some v := by
  induction m with
  | nil => cases hmem
  | cons q rest ih =>
    have hnd' : (mapKeys rest).Nodup := by
      simpa [mapKeys] using List.Nodup.of_cons hnd
    by_cases hk : (q.1 == k) = true
    · have hq1 : q.1 = k := by simpa using hk
      rcases List.mem_cons.mp hmem with heq | htail
      · subst heq
        simp [mapLookup, List.find?]
      · exfalso
        have hkmem : k ∈ mapKeys rest :=
          List.mem_map.mpr ⟨(k, v), htail, rfl⟩
        have hcons : (q.1 :: mapKeys rest).Nodup := by
          simpa only [mapKeys, List.map_cons] using hnd
        have : q.1 ∉ mapKeys rest := (List.nodup_cons.mp hcons).1
        rw [hq1] at this
        exact this hkmem
    · rcases List.mem_cons.mp hmem with heq | htail
      · subst heq
        simp at hk
      · have := ih hnd' htail
        simpa [mapLookup, List.find?, hk] using this

/-- Looking up the key of any entry of a map succeeds. -/
theorem mapLookup_isSome_of_mem (m : List (String × α)) (p : String × α)
    (hmem : p ∈ m) : (mapLookup m p.1).isSome = true := by
  have : (m.find? (fun q => q.1 == p.1)).isSome = true := by
    rw [List.find?_isSome]
    exact ⟨p, hmem, by simp⟩
  simpa [mapLookup] using this

/-- Comparing an element with itself yields no tracked-field delta. -/
theorem changedFields_self (el : InteractiveElement) :
    changedFields el el = none := by
  simp [changedFields, ElementDelta.isEmpty]

/-- C7: for every CompactState `S`, `diffStates S S` returns a diff whose
`added`, `removed` and `changed` lists are all empty; hence diffing two
identical-by-value snapshots yields an empty diff. -/
theorem claimC7_diffStates_self (S : CompactState) :
    diffStates S S = { added := [], removed := [], changed := [] } := by
  unfold diffStates
  have hnd : (mapKeys (indexByRef S.interactive)).Nodup :=
    nodup_mapKeys_jsMapOfList _
  have hsome : ∀ p ∈ indexByRef S.interactive,
      mapLookup (indexByRef S.interactive) p.1 = some p.2 := by
    intro p hp
    exact mapLookup_of_mem _ p.1 p.2 hnd hp
  have hadded : (List.filter
      (fun p => (mapLookup (indexByRef S.interactive) p.1).isNone)
      (indexByRef S.interactive)) = [] := by
    rw [List.filter_eq_nil_iff]
    intro p hp
    simp [hsome p hp]
  have hchanged : (List.filterMap (fun p =>
      match mapLookup (indexByRef S.interactive) p.1 with
      | none => none
      | some prevEl =>
        (changedFields prevEl p.2).map (fun d => ChangedEntry.mk p.1 d.1 d.2))
      (indexByRef S.interactive)) = [] := by
    rw [List.filterMap_eq_nil_iff]
    intro p hp
    rw [hsome p hp]
    simp [changedFields_self]
  simp only [hadded, hchanged, List.map_nil]

/-! ## Redaction theorems (C5, C10) -/

/-- C5: `redactSecrets` replaces the value of every object key that
matches the secret-name pattern set and holds a string with the marker
encoding the original string's length, recursively over nested objects and
arrays, while allow-listed keys and non-secret keys are left unchanged:
the spec's scenario `email`/`password` evaluates as stated, a secret key
with a string value is replaced by `redactedMarker` of its length, an
allow-listed entry is returned untouched, a non-secret string entry is
returned untouched, arrays recurse item-wise, a nested secret string two
levels down is redacted, and the sample key names classify as the pattern
set prescribes. -/
theorem claimC5_redactSecrets_secret_strings :
    (redactSecrets [] secretKeyPatterns
        (Json.obj [("email", Json.str "a@b.com"), ("password", Json.str "hunter2")]) =
      Json.obj [("email", Json.str "a@b.com"), ("password", Json.str "[REDACTED:7]")]) ∧
    (∀ (allowlist : List String) (patterns : List (String → Bool))
        (k : String) (s : String) (rest : List (String × Json)),
      allowlist.contains k = false → isSecretKey k patterns = true →
      redactFields allowlist patterns ((k, Json.str s) :: rest) =
        (k, Json.str (redactedMarker s.length)) :: redactFields allowlist patterns rest) ∧
    (∀ (allowlist : List String) (patterns : List (String → Bool))
        (k : String) (v : Json) (rest : List (String × Json)),
      allowlist.contains k = true →
      redactFields allowlist patterns ((k, v) :: rest) =
        (k, v) :: redactFields allowlist patterns rest) ∧
    (∀ (allowlist : List String) (patterns : List (String → Bool))
        (k : String) (s : String) (rest : List (String × Json)),
      allowlist.contains k = false → isSecretKey k patterns = false →
      redactFields allowlist patterns ((k, Json.str s) :: rest) =
        (k, Json.str s) :: redactFields allowlist patterns rest) ∧
    (∀ (allowlist : List String) (patterns : List (String → Bool)) (items : List Json),
      redactSecrets allowlist patterns (Json.arr items) =
        Json.arr (redactItems allowlist patterns items)) ∧
    (redactSecrets [] secretKeyPatterns
        (Json.obj [("data", Json.arr
          [Json.obj [("token", Json.str "abc"), ("note", Json.str "x")]])]) =
      Json.obj [("data", Json.arr
        [Json.obj [("token", Json.str "[REDACTED:3]"), ("note", Json.str "x")]])]) ∧
    isSecretKey "password" secretKeyPatterns = true ∧
    isSecretKey "token" secretKeyPatterns = true ∧
    isSecretKey "secret" secretKeyPatterns = true ∧
    isSecretKey "apiKey" secretKeyPatterns = true ∧
    isSecretKey "otp" secretKeyPatterns = true ∧
    isSecretKey "authToken" secretKeyPatterns = true ∧
    isSecretKey "credential" secretKeyPatterns = true ∧
    isSecretKey "email" secretKeyPatterns = false := by
  have hpw : isSecretKey "password" secretKeyPatterns = true := by decide
  have hem : isSecretKey "email" secretKeyPatterns = false := by decide
  have htk : isSecretKey "token" secretKeyPatterns = true := by decide
  have hnt : isSecretKey "note" secretKeyPatterns = false := by decide
  have hdt : isSecretKey "data" secretKeyPatterns = false := by decide
  have hm7 : redactedMarker (String.length "hunter2") = "[REDACTED:7]" := by decide
  have hm3 : redactedMarker (String.length "abc") = "[REDACTED:3]" := by decide
  refine ⟨?_, ?_, ?_, ?_, ?_, ?_, ?_⟩
  · simp [redactSecrets, redactFields, redactItems, Json.isStr, hpw, hem, hm7]
  · intro allowlist patterns k s rest h1 h2
    have h1' : k ∉ allowlist := by simpa using h1
    simp [redactFields, Json.isStr, h1', h2]
  · intro allowlist patterns k v rest h1
    have h1' : k ∈ allowlist := by simpa using h1
    simp [redactFields, h1']
  · intro allowlist patterns k s rest h1 h2
    have h1' : k ∉ allowlist := by simpa using h1
    simp [redactFields, redactSecrets, Json.isStr, h1', h2]
  · intro allowlist patterns items
    simp [redactSecrets]
  · simp [redactSecrets, redactFields, redactItems, Json.isStr, htk, hnt, hdt, hm3]
  · refine ⟨hpw, htk, by decide, by decide, by decide, by decide, by decide, hem⟩

/-- Witness for C5 at concrete inputs: the three quantified conjuncts
instantiated and their hypotheses discharged. -/
theorem claimC5_redactSecrets_secret_strings_witness :
    redactFields [] secretKeyPatterns [("password", Json.str "hunter2")] =
      [("password", Json.str "[REDACTED:7]")] ∧
    redactFields ["password"] secretKeyPatterns [("password", Json.str "hunter2")] =
      [("password", Json.str "hunter2")] ∧
    redactFields [] secretKeyPatterns [("email", Json.str "a@b.com")] =
      [("email", Json.str "a@b.com")] := by
  have h := claimC5_redactSecrets_secret_strings
  have hm7 : redactedMarker (String.length "hunter2") = "[REDACTED:7]" := by decide
  refine ⟨?_, ?_, ?_⟩
  · have := h.2.1 [] secretKeyPatterns "password" "hunter2" [] (by decide) (by decide)
    simpa [redactFields, hm7] using this
  · have := h.2.2.1 ["password"] secretKeyPatterns "password" (Json.str "hunter2") [] (by decide)
    simpa [redactFields] using this
  · have := h.2.2.2.1 [] secretKeyPatterns "email" "a@b.com" [] (by decide) (by decide)
    simpa [redactFields] using this

/-- C10: `redactSecrets` replaces only string values: a secret-named key
whose value is not a string is not replaced by a marker but recursed into
(so nested string secrets inside objects and arrays under it are still
redacted), and non-string scalars (numbers, booleans, null) pass through
unchanged. -/
theorem claimC10_redactSecrets_nonstring_values :
    (∀ (allowlist : List String) (patterns : List (String → Bool))
        (k : String) (v : Json) (rest : List (String × Json)),
      allowlist.contains k = false → v.isStr = false →
      redactFields allowlist patterns ((k, v) :: rest) =
        (k, redactSecrets allowlist patterns v) :: redactFields allowlist patterns rest) ∧
    (∀ (allowlist : List String) (patterns : List (String → Bool)) (n : Int),
      redactSecrets allowlist patterns (Json.num n) = Json.num n) ∧
    (∀ (allowlist : List String) (patterns : List (String → Bool)) (b : Bool),
      redactSecrets allowlist patterns (Json.bool b) = Json.bool b) ∧
    (∀ (allowlist : List String) (patterns : List (String → Bool)),
      redactSecrets allowlist patterns Json.null = Json.null) ∧
    (redactSecrets [] secretKeyPatterns
        (Json.obj [("password", Json.num 42),
                   ("auth", Json.obj [("token", Json.str "abc")]),
                   ("secret", Json.bool true)]) =
      Json.obj [("password", Json.num 42),
                ("auth", Json.obj [("token", Json.str "[REDACTED:3]")]),
                ("secret", Json.bool true)]) := by
  have htk : isSecretKey "token" secretKeyPatterns = true := by decide
  have hm3 : redactedMarker (String.length "abc") = "[REDACTED:3]" := by decide
  refine ⟨?_, ?_, ?_, ?_, ?_⟩
  · intro allowlist patterns k v rest h1 h2
    have h1' : k ∉ allowlist := by simpa using h1
    simp [redactFields, h1', h2]
  · intro allowlist patterns n
    simp [redactSecrets]
  · intro allowlist patterns b
    simp [redactSecrets]
  · intro allowlist patterns
    simp [redactSecrets]
  · simp [redactSecrets, redactFields, Json.isStr, htk, hm3]

/-- Witness for C10: the quantified conjunct instantiated at a
secret-named key with a number value, hypotheses discharged. -/
theorem claimC10_redactSecrets_nonstring_values_witness :
    redactFields [] secretKeyPatterns [("password", Json.num 42)] =
      [("password", Json.num 42)] := by
  have := claimC10_redactSecrets_nonstring_values.1 [] secretKeyPatterns
    "password" (Json.num 42) [] (by decide) (by simp [Json.isStr])
  simpa [redactFields, redactSecrets] using this

/-! ## Ref resolution theorems (C3) -/

/-- A ref absent from the snapshot makes `resolveRef` fail with
`ElementMissing` (shared helper). -/
theorem resolveRef_absent (r : String) (st : CompactState)
    (h : ∀ el ∈ st.interactive, el.ref ≠ r) :
    resolveRef (some r) st = .error (.elementMissing r) := by
  have hfind : st.interactive.find? (fun e => e.ref == r) = none := by
    rw [List.find?_eq_none]
    intro el hel
    simpa using h el hel
  simp [resolveRef, hfind, fuzzyRefResolve]

/-- C3: the executor's ref resolution fails with `ElementMissing` for
every ref not present in the current snapshot: the production call site
invokes `fuzzyRefResolve` with no hint, with no hint `fuzzyRefResolve`
returns no match for any ref and any snapshot, and hence `resolveRef` on
an absent ref (or an absent `step.ref` field) always errors. -/
theorem claimC3_fuzzy_fallback_inert :
    (∀ (r : String) (st : CompactState), fuzzyRefResolve r st none = none) ∧
    (∀ st : CompactState,
      resolveRef none st = .error (.elementMissing "(undefined ref)")) ∧
    (∀ (r : String) (st : CompactState),
      (∀ el ∈ st.interactive, el.ref ≠ r) →
      resolveRef (some r) st = .error (.elementMissing r)) := by
  refine ⟨?_, ?_, ?_⟩
  · intro r st
    simp [fuzzyRefResolve]
  · intro st
    simp [resolveRef]
  · intro r st h
    exact resolveRef_absent r st h

/-- Witness for C3: resolution of the absent ref `E9` against the empty
snapshot fails with `ElementMissing`. -/
theorem claimC3_fuzzy_fallback_inert_witness :
    resolveRef (some "E9") emptyState = .error (.elementMissing "E9") :=
  claimC3_fuzzy_fallback_inert.2.2 "E9" emptyState
    (by intro el hel; simp [emptyState] at hel)

/-! ## Selector resolution theorems (C4) -/

/-- `firstMatch` skips a prefix of non-matching selectors. -/
theorem firstMatch_append (q : String → QueryOutcome) (pre post : List String)
    (sel : String) (h : Nat) (vis : Bool)
    (hpre : ∀ s ∈ pre, (q s).isFound = false) (hsel : q sel = .found h vis) :
    firstMatch q (pre ++ sel :: post) = some (sel, h) := by
  induction pre with
  | nil => simp [firstMatch, hsel]
  | cons s rest ih =>
    have hs : (q s).isFound = false := hpre s (by simp)
    have hrest : ∀ s' ∈ rest, (q s').isFound = false := by
      intro s' hs'
      exact hpre s' (by simp [hs'])
    rw [List.cons_append]
    rw [firstMatch]
    cases hq : q s with
    | found h' v' => rw [hq] at hs; simp [QueryOutcome.isFound] at hs
    | thrown => exact ih hrest
    | missing => exact ih hrest

/-- `firstMatch` returns nothing when no selector matches. -/
theorem firstMatch_none (q : String → QueryOutcome) (l : List String)
    (hl : ∀ s ∈ l, (q s).isFound = false) : firstMatch q l = none := by
  induction l with
  | nil => rfl
  | cons s rest ih =>
    have hs : (q s).isFound = false := hl s (by simp)
    have hrest : ∀ s' ∈ rest, (q s').isFound = false := by
      intro s' hs'
      exact hl s' (by simp [hs'])
    rw [firstMatch]
    cases hq : q s with
    | found h' v' => rw [hq] at hs; simp [QueryOutcome.isFound] at hs
    | thrown => exact ih hrest
    | missing => exact ih hrest

/-- C4: `trySelectors` attempts locators in the exact order
`[primary, ...fallback]` and returns the first locator whose probe finds
a live element, paired with the match; it fails with `ElementMissing`
only after every locator was attempted, and the failure carries the whole
attempted list. -/
theorem claimC4_trySelectors_first_match :
    (∀ (q : String → QueryOutcome) (ss : SelectorSet) (pre post : List String)
        (sel : String) (h : Nat) (vis : Bool),
      ss.primary :: ss.fallback = pre ++ sel :: post →
      (∀ s ∈ pre, (q s).isFound = false) →
      q sel = .found h vis →
      trySelectors q ss = .ok (sel, h)) ∧
    (∀ (q : String → QueryOutcome) (ss : SelectorSet),
      (∀ s ∈ ss.primary :: ss.fallback, (q s).isFound = false) →
      trySelectors q ss = .error (ss.primary :: ss.fallback)) := by
  constructor
  · intro q ss pre post sel h vis hsplit hpre hsel
    have hfm := firstMatch_append q pre post sel h vis hpre hsel
    simp [trySelectors, hsplit, hfm]
  · intro q ss hall
    have hfm := firstMatch_none q _ hall
    simp [trySelectors, hfm]

/-- Witness for C4: a probe matching only the second fallback returns that
locator with its handle, and an always-missing probe exhausts the list and
reports every attempted locator. -/
theorem claimC4_trySelectors_first_match_witness :
    trySelectors (fun s => if s == "b" then .found 7 true else .missing)
        { primary := "a", fallback := ["b", "c"] } = .ok ("b", 7) ∧
    trySelectors (fun _ => .missing) { primary := "a", fallback := ["b", "c"] } =
      .error ["a", "b", "c"] := by
  constructor
  · exact claimC4_trySelectors_first_match.1
      (fun s => if s == "b" then .found 7 true else .missing)
      { primary := "a", fallback := ["b", "c"] } ["a"] ["c"] "b" 7 true
      (by decide) (by decide) (by decide)
  · exact claimC4_trySelectors_first_match.2 (fun _ => .missing)
      { primary := "a", fallback := ["b", "c"] } (by decide)

/-! ## Executor theorems (C6, C2, C9) -/

/-- C6: before every step of every execution pass — at any position `i`,
with any pending results and action log — the CAPTCHA detector and then
the 2FA detector are evaluated; if either fires, the step is recorded as a
failed result carrying the escalation-class error, nothing is dispatched
to the browser (the action log is unchanged), and execution halts with no
later step attempted. -/
theorem claimC6_detectors_halt_before_dispatch :
    (∀ (env : ExecEnv) (step : Step) (rest : List Step) (i : Nat)
        (state : CompactState) (acc : List StepResult) (log : List Action),
      env.captcha i = true →
      execSteps env (step :: rest) i state acc log =
        (acc ++ [{ id := step.id, op := step.op, status := .failed,
                   selectorUsed := none, error := some .captchaDetected }], log)) ∧
    (∀ (env : ExecEnv) (step : Step) (rest : List Step) (i : Nat)
        (state : CompactState) (acc : List StepResult) (log : List Action),
      env.captcha i = false → env.twoFA i = true →
      execSteps env (step :: rest) i state acc log =
        (acc ++ [{ id := step.id, op := step.op, status := .failed,
                   selectorUsed := none, error := some .twoFADetected }], log)) ∧
    WErr.stepEscalatable .captchaDetected = true ∧
    WErr.stepEscalatable .twoFADetected = true := by
  refine ⟨?_, ?_, rfl, rfl⟩
  · intro env step rest i state acc log hc
    simp [execSteps, hc, WErr.stepEscalatable]
  · intro env step rest i state acc log hc ht
    simp [execSteps, hc, ht, WErr.stepEscalatable]

/-- Witness for C6: with the CAPTCHA (resp. 2FA) detector firing, a
one-step plan records a single failed escalation-class result and an
unchanged action log. -/
theorem claimC6_detectors_halt_before_dispatch_witness :
    execSteps envCaptcha [clickStepE9, screenshotStep] 0 emptyState [] [] =
      ([{ id := clickStepE9.id, op := clickStepE9.op, status := .failed,
          selectorUsed := none, error := some .captchaDetected }], []) ∧
    execSteps envTwoFA [screenshotStep] 0 emptyState [] [] =
      ([{ id := screenshotStep.id, op := screenshotStep.op, status := .failed,
          selectorUsed := none, error := some .twoFADetected }], []) := by
  constructor
  · have := claimC6_detectors_halt_before_dispatch.1 envCaptcha clickStepE9
      [screenshotStep] 0 emptyState [] [] (by decide)
    simpa using this
  · have := claimC6_detectors_halt_before_dispatch.2.1 envTwoFA screenshotStep
      [] 0 emptyState [] [] (by decide) (by decide)
    simpa using this

/-- C2: a `click` step whose ref is absent from the current snapshot (the
fuzzy fallback, invoked hintless, matches nothing) produces exactly one
failed `ElementMissing` StepResult; before halting, exactly one generic
recovery attempt — cookie-banner dismissal followed by modal dismissal —
is appended after the pre-run pair, no browser action is dispatched, and
no later step of the plan is attempted. -/
theorem claimC2_click_missing_ref_halts (env : ExecEnv) (plan : Plan)
    (state : CompactState) (step : Step) (rest : List Step) (r : String)
    (hsteps : plan.steps = step :: rest)
    (hop : step.op = "click")
    (href : step.ref = some r)
    (habsent : ∀ el ∈ state.interactive, el.ref ≠ r)
    (hc : env.captcha 0 = false) (ht : env.twoFA 0 = false) :
    executePlan env plan state =
      ([{ id := step.id, op := step.op, status := .failed, selectorUsed := none,
          error := some (.elementMissing r) }],
       [.cookieBanner, .dismissModal, .cookieBanner, .dismissModal]) := by
  have hresolve : resolveRef step.ref state = .error (.elementMissing r) := by
    rw [href]
    exact resolveRef_absent r state habsent
  have hstep : executeStep env 0 step state = (.error (.elementMissing r), []) := by
    rw [executeStep]
    have h1 : (step.op == "navigate") = false := by simp [hop]
    have h2 : (step.op == "click") = true := by simp [hop]
    simp [h1, h2, hresolve]
  unfold executePlan
  rw [hsteps]
  rw [execSteps]
  simp [hc, ht, hstep, WErr.stepEscalatable, WErr.recoverable, WErr.isElementMissing]

/-- Witness for C2: the two-step plan whose first click references the
absent `E9` halts with one failed ElementMissing result (the screenshot
step never runs) after the pre-run and recovery cookie/modal pairs. -/
theorem claimC2_click_missing_ref_halts_witness :
    executePlan envQuiet planClickMissing emptyState =
      ([{ id := "s1", op := "click", status := .failed, selectorUsed := none,
          error := some (.elementMissing "E9") }],
       [.cookieBanner, .dismissModal, .cookieBanner, .dismissModal]) := by
  have := claimC2_click_missing_ref_halts envQuiet planClickMissing emptyState
    clickStepE9 [screenshotStep] "E9"
    (by rfl) (by rfl) (by rfl)
    (by intro el hel; simp [emptyState] at hel)
    (by decide) (by decide)
  simpa [clickStepE9] using this

/-- Statuses other than `skipped` are preserved through the step loop
(helper for C9). -/
theorem execSteps_no_skipped (env : ExecEnv) (steps : List Step) :
    ∀ (i : Nat) (state : CompactState) (acc : List StepResult) (log : List Action),
      (∀ res ∈ acc, res.status = .success ∨ res.status = .failed) →
      ∀ res ∈ (execSteps env steps i state acc log).1,
        res.status = .success ∨ res.status = .failed := by
  induction steps with
  | nil =>
    intro i state acc log hacc res hres
    rw [execSteps] at hres
    exact hacc res hres
  | cons step rest ih =>
    intro i state acc log hacc res hres
    rw [execSteps] at hres
    rcases hr : (if env.captcha i then (Except.error WErr.captchaDetected, [])
      else if env.twoFA i then (Except.error WErr.twoFADetected, [])
      else executeStep env i step state) with ⟨r0, acts⟩
    rw [hr] at hres
    cases r0 with
    | ok sel =>
      refine ih (i + 1) ((env.snapshot i).getD state)
        (acc ++ [{ id := step.id, op := step.op, status := .success,
                   selectorUsed := sel, error := none }]) (log ++ acts) ?_ res hres
      intro res' hres'
      rcases List.mem_append.mp hres' with hmem | hmem
      · exact hacc res' hmem
      · left
        simp at hmem
        rw [hmem]
    | error e =>
      have hmem : res ∈ acc ++ [(⟨step.id, step.op, WStatus.failed, none, some e⟩ : StepResult)] := by
        by_cases h1 : (e.stepEscalatable || !e.recoverable) = true
        · simpa [h1] using hres
        · by_cases h2 : e.isElementMissing = true
          · simpa [h1, h2] using hres
          · simpa [h1, h2] using hres
      rcases List.mem_append.mp hmem with hmem' | hmem'
      · exact hacc res hmem'
      · right
        simp at hmem'
        rw [hmem']

/-- C9: `executePlan` never emits a `skipped` StepResult even though the
StepResult type declares that status — every emitted result is `success`
or `failed` — and a step whose op is not one of the eight known operations
is recorded as `success` without any browser dispatch. -/
theorem claimC9_no_skipped_and_unknown_op :
    (∀ (env : ExecEnv) (plan : Plan) (state : CompactState),
      ∀ res ∈ (executePlan env plan state).1,
        res.status = .success ∨ res.status = .failed) ∧
    (∀ (env : ExecEnv) (i : Nat) (step : Step) (state : CompactState),
      knownOps.contains step.op = false →
      executeStep env i step state = (.ok none, [])) ∧
    (∀ (env : ExecEnv) (step : Step) (rest : List Step) (i : Nat)
        (state : CompactState) (acc : List StepResult) (log : List Action),
      knownOps.contains step.op = false →
      env.captcha i = false → env.twoFA i = false →
      execSteps env (step :: rest) i state acc log =
        execSteps env rest (i + 1) ((env.snapshot i).getD state)
          (acc ++ [{ id := step.id, op := step.op, status := .success,
                     selectorUsed := none, error := none }]) log) := by
  have hunknown : ∀ (env : ExecEnv) (i : Nat) (step : Step) (state : CompactState),
      knownOps.contains step.op = false →
      executeStep env i step state = (.ok none, []) := by
    intro env i step state hop
    have hop' : step.op ∉ knownOps := by simpa using hop
    have hne : ∀ o ∈ knownOps, step.op ≠ o := by
      intro o ho heq
      exact hop' (heq ▸ ho)
    have h1 : (step.op == "navigate") = false := by
      simpa using hne "navigate" (by simp [knownOps])
    have h2 : (step.op == "click") = false := by
      simpa using hne "click" (by simp [knownOps])
    have h3 : (step.op == "type") = false := by
      simpa using hne "type" (by simp [knownOps])
    have h4 : (step.op == "select") = false := by
      simpa using hne "select" (by simp [knownOps])
    have h5 : (step.op == "waitFor") = false := by
      simpa using hne "waitFor" (by simp [knownOps])
    have h6 : (step.op == "screenshot") = false := by
      simpa using hne "screenshot" (by simp [knownOps])
    have h7 : (step.op == "scroll") = false := by
      simpa using hne "scroll" (by simp [knownOps])
    have h8 : (step.op == "extract") = false := by
      simpa using hne "extract" (by simp [knownOps])
    rw [executeStep]
    simp [h1, h2, h3, h4, h5, h6, h7, h8]
  refine ⟨?_, hunknown, ?_⟩
  · intro env plan state res hres
    rw [executePlan] at hres
    exact execSteps_no_skipped env plan.steps 0 state []
      [.cookieBanner, .dismissModal] (by intro r hr; cases hr) res hres
  · intro env step rest i state acc log hop hc ht
    rw [execSteps]
    simp [hc, ht, hunknown env i step state hop]

/-- Witness for C9: the unknown-op plan yields one `success` result with
no dispatch, and its single result has a non-skipped status. -/
theorem claimC9_no_skipped_and_unknown_op_witness :
    executeStep envQuiet 0 unknownOpStep emptyState = (.ok none, []) ∧
    ((StepResult.mk "s9" "frobnicate" WStatus.success none none).status = WStatus.success ∨
      (StepResult.mk "s9" "frobnicate" WStatus.success none none).status = WStatus.failed) := by
  constructor
  · exact claimC9_no_skipped_and_unknown_op.2.1 envQuiet 0 unknownOpStep emptyState
      (by decide)
  · refine claimC9_no_skipped_and_unknown_op.1 envQuiet planUnknownOp emptyState _ ?_
    decide

/-! ## Patch loop theorems (C1) -/

/-- One unfolding of the loop guard (helper). -/
theorem patchLoop_stop (m : Nat) (next : Nat → Verdict) (v : Verdict) (r : Nat)
    (h : ¬(v.status = .patch ∧ r < m)) : patchLoop m next v r = (v, r) := by
  rw [patchLoop]
  simp [h]

/-- One iteration of the loop (helper). -/
theorem patchLoop_iterate (m : Nat) (next : Nat → Verdict) (v : Verdict) (r : Nat)
    (hv : v.status = .patch) (hr : r < m) :
    patchLoop m next v r = patchLoop m next (next (r + 1)) (r + 1) := by
  rw [patchLoop]
  simp [hv, hr]

/-- The final round counter never exceeds the bound (helper, by induction
on the remaining fuel). -/
theorem patchLoop_counter_le (fuel : Nat) :
    ∀ (m : Nat) (next : Nat → Verdict) (v : Verdict) (r : Nat),
      m - r ≤ fuel → r ≤ m → (patchLoop m next v r).2 ≤ m := by
  induction fuel with
  | zero =>
    intro m next v r hfuel hr
    have hrm : r = m := by omega
    rw [patchLoop_stop m next v r (by omega)]
    simpa using hr
  | succ fuel ih =>
    intro m next v r hfuel hr
    by_cases hcond : v.status = .patch ∧ r < m
    · rw [patchLoop_iterate m next v r hcond.1 hcond.2]
      exact ih m next (next (r + 1)) (r + 1) (by omega) (by omega)
    · rw [patchLoop_stop m next v r hcond]
      exact hr

/-- The loop never invents a verdict: the result is the initial verdict or
one produced by the round oracle at some round in range (helper). -/
theorem patchLoop_result_provenance (fuel : Nat) :
    ∀ (m : Nat) (next : Nat → Verdict) (v : Verdict) (r : Nat),
      m - r ≤ fuel →
      (patchLoop m next v r).1 = v ∨
        ∃ k, r < k ∧ k ≤ m ∧ (patchLoop m next v r).1 = next k := by
  induction fuel with
  | zero =>
    intro m next v r hfuel
    by_cases hcond : v.status = .patch ∧ r < m
    · omega
    · rw [patchLoop_stop m next v r hcond]
      left
      rfl
  | succ fuel ih =>
    intro m next v r hfuel
    by_cases hcond : v.status = .patch ∧ r < m
    · rw [patchLoop_iterate m next v r hcond.1 hcond.2]
      rcases ih m next (next (r + 1)) (r + 1) (by omega) with h | ⟨k, hk1, hk2, hk3⟩
      · right
        exact ⟨r + 1, by omega, by omega, h⟩
      · right
        exact ⟨k, by omega, hk2, hk3⟩
    · rw [patchLoop_stop m next v r hcond]
      left
      rfl

/-- C1: the orchestrator's patch loop runs at most `maxPatchRounds`
rounds: the counter never exceeds the bound, the loop iterates only while
the verdict is `patch` and the counter is below the bound (a `success` or
`escalate` verdict at any round ends it immediately regardless of the
bound), the counter is incremented exactly once per iteration, and on
bound exhaustion the last verdict stands — the final verdict is always the
initial one or one produced by some round's oracle, never synthesized. -/
theorem claimC1_patch_loop_bounded :
    (∀ (m : Nat) (next : Nat → Verdict) (v : Verdict),
      (patchLoop m next v 0).2 ≤ m) ∧
    (∀ (m : Nat) (next : Nat → Verdict) (v : Verdict) (r : Nat),
      v.status ≠ .patch → patchLoop m next v r = (v, r)) ∧
    (∀ (m : Nat) (next : Nat → Verdict) (v : Verdict) (r : Nat),
      m ≤ r → patchLoop m next v r = (v, r)) ∧
    (∀ (m : Nat) (next : Nat → Verdict) (v : Verdict) (r : Nat),
      v.status = .patch → r < m →
      patchLoop m next v r = patchLoop m next (next (r + 1)) (r + 1)) ∧
    (∀ (m : Nat) (next : Nat → Verdict) (v : Verdict) (r : Nat),
      (patchLoop m next v r).1 = v ∨
        ∃ k, r < k ∧ k ≤ m ∧ (patchLoop m next v r).1 = next k) := by
  refine ⟨?_, ?_, ?_, ?_, ?_⟩
  · intro m next v
    exact patchLoop_counter_le m m next v 0 (by omega) (by omega)
  · intro m next v r hv
    exact patchLoop_stop m next v r (by tauto)
  · intro m next v r hr
    exact patchLoop_stop m next v r (by omega)
  · intro m next v r hv hr
    exact patchLoop_iterate m next v r hv hr
  · intro m next v r
    exact patchLoop_result_provenance (m - r) m next v r (by omega)

/-- Witness for C1: with bound 2 and an oracle answering `escalate` at
round 1, the loop started on a `patch` verdict stops after exactly one
round with the escalate verdict standing. -/
theorem claimC1_patch_loop_bounded_witness :
    patchLoop 2 nextEscalateAt1 vPatch 0 = (vEscalate, 1) ∧
    (patchLoop 2 nextEscalateAt1 vPatch 0).2 ≤ 2 := by
  have h4 := claimC1_patch_loop_bounded.2.2.2.1 2 nextEscalateAt1 vPatch 0
    (by decide) (by decide)
  have h2 := claimC1_patch_loop_bounded.2.1 2 nextEscalateAt1 (nextEscalateAt1 1) 1
    (by decide)
  have hchain : patchLoop 2 nextEscalateAt1 vPatch 0 = (nextEscalateAt1 1, 1) := by
    rw [h4, h2]
  constructor
  · rw [hchain]
    decide
  · exact claimC1_patch_loop_bounded.1 2 nextEscalateAt1 vPatch

/-! ## Macro substitution lemmas (toward C8) -/

/-- `takeWord` splits a word prefix followed by a non-word character. -/
theorem takeWord_append (w r : List Char) (hw : ∀ c ∈ w, isWordChar c = true)
    (hr : ∀ c, r.head? = some c → isWordChar c = false) :
    takeWord (w ++ r) = (w, r) := by
  induction w with
  | nil =>
    cases r with
    | nil => rfl
    | cons c rest =>
      have := hr c (by rfl)
      simp [takeWord, this]
  | cons c w' ih =>
    have hc : isWordChar c = true := hw c (by simp)
    have hw' : ∀ c' ∈ w', isWordChar c' = true := by
      intro c' h
      exact hw c' (by simp [h])
    simp [takeWord, hc, ih hw']

/-- `takeWord` splits its input into its two components. -/
theorem takeWord_recover (l : List Char) : (takeWord l).1 ++ (takeWord l).2 = l := by
  induction l with
  | nil => rfl
  | cons c rest ih =>
    simp only [takeWord]
    by_cases h : isWordChar c = true
    · simp [h, ih]
    · simp [h]

/-- The word prefix extracted by `takeWord` is made of word characters. -/
theorem takeWord_fst_word (l : List Char) : ∀ c ∈ (takeWord l).1, isWordChar c = true := by
  induction l with
  | nil => simp [takeWord]
  | cons c rest ih =>
    simp only [takeWord]
    by_cases h : isWordChar c = true
    · simp only [h, if_true]
      intro c' hc'
      simp at hc'
      rcases hc' with rfl | hm
      · exact h
      · exact ih c' hm
    · simp [h]

/-- A non-brace head character is copied through the substitution. -/
theorem substChars_cons_not_brace (lookup : String → Option String) (c : Char)
    (rest : List Char) (h : (c == '\x7b') = false) :
    substChars lookup (c :: rest) = c :: substChars lookup rest := by
  rw [substChars.eq_def]
  simp [h]

/-- A well-formed placeholder token at the head is substituted (or kept
verbatim when the lookup misses), and scanning continues after it. -/
theorem substChars_token (lookup : String → Option String) (key rest : List Char)
    (hne : key ≠ []) (hword : ∀ c ∈ key, isWordChar c = true) :
    substChars lookup ('\x7b' :: key ++ '\x7d' :: rest) =
      (match lookup ⟨key⟩ with
       | some v => v.data
       | none => '\x7b' :: key ++ ['\x7d']) ++ substChars lookup rest := by
  rw [substChars.eq_def]
  have htw : takeWord (key ++ '\x7d' :: rest) = (key, '\x7d' :: rest) := by
    apply takeWord_append key _ hword
    intro c hc
    simp at hc
    subst hc
    decide
  have hnee : key.isEmpty = false := by
    cases key with
    | nil => exact absurd rfl hne
    | cons a b => rfl
  simp [htw, hnee]

/-- With a lookup that never hits, substitution is the identity. -/
theorem substChars_id_of_none (lookup : String → Option String)
    (hl : ∀ k, lookup k = none) (l : List Char) : substChars lookup l = l := by
  induction l using substChars.induct lookup with
  | case1 => rw [substChars.eq_def]
  | case2 c rest hbrace p h ih =>
    rw [substChars.eq_def]
    simp only [hbrace, if_true, h, dif_pos]
    rw [hl ⟨(takeWord rest).1⟩]
    simp only [Bool.and_eq_true, decide_eq_true_eq] at h
    rcases h with ⟨hh, hne⟩
    cases hp : (takeWord rest).2 with
    | nil => rw [hp] at hh; simp at hh
    | cons a b =>
      rw [hp] at hh
      simp at hh
      subst hh
      have hrec := takeWord_recover rest
      rw [hp] at hrec
      have ih' : substChars lookup (takeWord rest).2.tail = (takeWord rest).2.tail := ih
      rw [hp] at ih'
      simp only [List.tail_cons] at ih'
      simp only [List.tail_cons]
      rw [ih']
      have hc : c = '\x7b' := by simpa using hbrace
      subst hc
      conv_rhs => rw [← hrec]
      simp
  | case3 c rest hbrace p h ih =>
    rw [substChars.eq_def]
    simp [hbrace, h, ih]
  | case4 c rest hbrace ih =>
    rw [substChars.eq_def]
    simp [hbrace, ih]

/-! ## Number serialization lemmas (toward C8) -/

/-- `Char.ofNat` and `Char.toNat` cancel on valid code points. -/
theorem char_toNat_ofNat (n : Nat) (h : n.isValidChar) : (Char.ofNat n).toNat = n := by
  simp only [Char.ofNat, h, dif_pos, Char.ofNatAux, Char.toNat]
  rfl

/-- Appending one digit multiplies the accumulated value by ten. -/
theorem digitsToNat_append (l : List Char) (c : Char) :
    digitsToNat (l ++ [c]) = digitsToNat l * 10 + (c.toNat - 48) := by
  simp [digitsToNat, List.foldl_append]

/-- The decimal serialization of a natural number is a non-empty digit
run whose value is the number (with sufficient fuel). -/
theorem natToCharsAux_spec (f : Nat) : ∀ n, n < f →
    natToCharsAux f n ≠ [] ∧ (∀ c ∈ natToCharsAux f n, isDigitChar c = true) ∧
      digitsToNat (natToCharsAux f n) = n := by
  induction f with
  | zero => intro n h; omega
  | succ f ih =>
    intro n h
    rw [natToCharsAux]
    by_cases h10 : n < 10
    · have hv : (48 + n).isValidChar := Or.inl (by omega)
      have ht : (Char.ofNat (48 + n)).toNat = 48 + n := char_toNat_ofNat _ hv
      refine ⟨by simp [h10], ?_, ?_⟩
      · intro c hc
        simp [h10] at hc
        rw [hc, isDigitChar, ht]
        simp
        omega
      · simp [h10, digitsToNat, ht]
    · have hdiv : n / 10 < f := by
        have : n / 10 < n := Nat.div_lt_self (by omega) (by omega)
        omega
      obtain ⟨ihne, ihdig, ihval⟩ := ih (n / 10) hdiv
      have hv : (48 + n % 10).isValidChar := Or.inl (by omega)
      have ht : (Char.ofNat (48 + n % 10)).toNat = 48 + n % 10 := char_toNat_ofNat _ hv
      refine ⟨by simp [h10], ?_, ?_⟩
      · intro c hc
        simp only [h10, if_false] at hc
        rcases List.mem_append.mp hc with hm | hm
        · exact ihdig c hm
        · simp at hm
          rw [hm, isDigitChar, ht]
          simp
          omega
      · simp only [h10, if_false]
        rw [digitsToNat_append, ihval, ht]
        omega

/-- `natToChars` facts at full fuel. -/
theorem natToChars_spec (n : Nat) :
    natToChars n ≠ [] ∧ (∀ c ∈ natToChars n, isDigitChar c = true) ∧
      digitsToNat (natToChars n) = n :=
  natToCharsAux_spec (n + 1) n (by omega)

/-- `takeDigits` splits a digit run followed by a non-digit. -/
theorem takeDigits_append (ds rest : List Char)
    (hds : ∀ c ∈ ds, isDigitChar c = true)
    (hrest : ∀ c, rest.head? = some c → isDigitChar c = false) :
    takeDigits (ds ++ rest) = (ds, rest) := by
  induction ds with
  | nil =>
    cases rest with
    | nil => rfl
    | cons c r =>
      have := hrest c (by rfl)
      simp [takeDigits, this]
  | cons d ds' ih =>
    have hd : isDigitChar d = true := hds d (by simp)
    have hds' : ∀ c ∈ ds', isDigitChar c = true := by
      intro c hc
      exact hds c (by simp [hc])
    simp [takeDigits, hd, ih hds']

/-- A decimal digit is none of the parser's lead characters, is not
whitespace, and is not a closing delimiter. -/
theorem digit_not_special (c : Char) (h : isDigitChar c = true) :
    (c == 'n') = false ∧ (c == 't') = false ∧ (c == 'f') = false ∧
    (c == '"') = false ∧ (c == '[') = false ∧ (c == '\x7b') = false ∧
    (c == '-') = false ∧ jsonWs c = false ∧ (c == ']') = false ∧
    (c == '\x7d') = false := by
  have hv : 48 ≤ c.toNat ∧ c.toNat ≤ 57 := by simpa [isDigitChar] using h
  have hne : ∀ x : Char, (48 ≤ x.toNat ∧ x.toNat ≤ 57 → False) → (c == x) = false := by
    intro x hx
    apply beq_eq_false_iff_ne.mpr
    rintro rfl
    exact hx hv
  refine ⟨hne 'n' (by decide), hne 't' (by decide), hne 'f' (by decide),
    hne '"' (by decide), hne '[' (by decide), hne '\x7b' (by decide),
    hne '-' (by decide), ?_, hne ']' (by decide), hne '\x7d' (by decide)⟩
  rw [jsonWs]
  rw [hne ' ' (by decide), hne '\t' (by decide), hne '\n' (by decide),
    hne '\r' (by decide)]
  rfl

/-- `skipWs` leaves input headed by a non-whitespace character alone. -/
theorem skipWs_cons (c : Char) (l : List Char) (h : jsonWs c = false) :
    skipWs (c :: l) = c :: l := by
  rw [skipWs]
  simp [h]

/-- Every serialized value starts with a non-whitespace character that is
not a closing delimiter. -/
theorem stringify_head (j : Json) : ∃ c cs, stringifyChars j = c :: cs ∧
    jsonWs c = false ∧ (c == ']') = false ∧ (c == '\x7d') = false := by
  cases j with
  | null => exact ⟨'n', _, by rw [stringifyChars], by decide, by decide, by decide⟩
  | bool b =>
    cases b with
    | true => exact ⟨'t', _, by rw [stringifyChars], by decide, by decide, by decide⟩
    | false => exact ⟨'f', _, by rw [stringifyChars], by decide, by decide, by decide⟩
  | num n =>
    rw [stringifyChars, intToChars]
    by_cases hn : n < 0
    · exact ⟨'-', natToChars n.natAbs, by simp [hn], by decide, by decide, by decide⟩
    · simp only [hn, if_false]
      obtain ⟨hne, hdig, _⟩ := natToChars_spec n.toNat
      cases hh : natToChars n.toNat with
      | nil => exact absurd hh hne
      | cons d ds =>
        have hd : isDigitChar d = true := by
          apply hdig
          rw [hh]
          simp
        obtain ⟨_, _, _, _, _, _, _, hws, hcb, hob⟩ := digit_not_special d hd
        exact ⟨d, ds, rfl, hws, hcb, hob⟩
  | str s =>
    exact ⟨'"', (s.data.map escapeChar).flatten ++ ['"'],
      by rw [stringifyChars, quoteChars]; simp, by decide, by decide, by decide⟩
  | arr items =>
    exact ⟨'[', stringifyItems items ++ [']'],
      by rw [stringifyChars]; simp, by decide, by decide, by decide⟩
  | obj fields =>
    exact ⟨'\x7b', stringifyFields fields ++ ['\x7d'],
      by rw [stringifyChars]; simp, by decide, by decide, by decide⟩

/-! ## String escape roundtrip (toward C8) -/

/-- `hexVal` inverts `hexDigit` below 16. -/
theorem hexVal_hexDigit (v : Nat) (h : v < 16) : hexVal (hexDigit v) = some v := by
  interval_cases v <;> decide

/-- Terminating quote of a string-literal body. -/
theorem parseStringBody_quote (acc rest : List Char) :
    parseStringBody ('"' :: rest) acc = some (⟨acc.reverse⟩, rest) := by
  rw [parseStringBody.eq_def]
  rfl

/-- One `\\uXXXX` escape step of a string-literal body. -/
theorem parseStringBody_uescape (h1 h2 h3 h4 : Char) (a b a2 b2 : Nat)
    (rest acc : List Char)
    (hx1 : hexVal h1 = some a) (hx2 : hexVal h2 = some b)
    (hx3 : hexVal h3 = some a2) (hx4 : hexVal h4 = some b2) :
    parseStringBody ('\\' :: 'u' :: h1 :: h2 :: h3 :: h4 :: rest) acc =
      parseStringBody rest (Char.ofNat (((a * 16 + b) * 16 + a2) * 16 + b2) :: acc) := by
  rw [parseStringBody.eq_def]
  simp +decide only [hx1, hx2, hx3, hx4, if_true, if_false]

/-- One named escape step of a string-literal body. -/
theorem parseStringBody_escape (e u : Char) (rest acc : List Char)
    (he : (e == 'u') = false) (hu : unescapeChar e = some u) :
    parseStringBody ('\\' :: e :: rest) acc = parseStringBody rest (u :: acc) := by
  rw [parseStringBody.eq_def]
  simp +decide only [he, hu, if_true, if_false]

/-- One literal character step of a string-literal body. -/
theorem parseStringBody_plain (c : Char) (rest acc : List Char)
    (hb1 : (c == '"') = false) (hb2 : (c == '\\') = false) :
    parseStringBody (c :: rest) acc = parseStringBody rest (c :: acc) := by
  rw [parseStringBody.eq_def]
  simp only [hb1, hb2]
  simp

/-- Parsing a string-literal body inverts `JSON.stringify` escaping. -/
theorem parseStringBody_escaped (cs : List Char) : ∀ acc rest : List Char,
    parseStringBody ((cs.map escapeChar).flatten ++ '"' :: rest) acc =
      some (⟨acc.reverse ++ cs⟩, rest) := by
  induction cs with
  | nil =>
    intro acc rest
    simp [parseStringBody_quote]
  | cons c cs' ih =>
    intro acc rest
    simp only [List.map_cons, List.flatten_cons, List.append_assoc]
    by_cases h1 : c = '"'
    · subst h1
      rw [show escapeChar '"' = ['\\', '"'] from by decide]
      simp only [List.cons_append, List.nil_append]
      rw [parseStringBody_escape '"' '"' _ _ (by decide) (by decide), ih]
      simp
    · by_cases h2 : c = '\\'
      · subst h2
        rw [show escapeChar '\\' = ['\\', '\\'] from by decide]
        simp only [List.cons_append, List.nil_append]
        rw [parseStringBody_escape '\\' '\\' _ _ (by decide) (by decide), ih]
        simp
      · by_cases h3 : c = '\n'
        · subst h3
          rw [show escapeChar '\n' = ['\\', 'n'] from by decide]
          simp only [List.cons_append, List.nil_append]
          rw [parseStringBody_escape 'n' '\n' _ _ (by decide) (by decide), ih]
          simp
        · by_cases h4 : c = '\t'
          · subst h4
            rw [show escapeChar '\t' = ['\\', 't'] from by decide]
            simp only [List.cons_append, List.nil_append]
            rw [parseStringBody_escape 't' '\t' _ _ (by decide) (by decide), ih]
            simp
          · by_cases h5 : c = '\r'
            · subst h5
              rw [show escapeChar '\r' = ['\\', 'r'] from by decide]
              simp only [List.cons_append, List.nil_append]
              rw [parseStringBody_escape 'r' '\r' _ _ (by decide) (by decide), ih]
              simp
            · by_cases h6 : c.toNat = 8
              · have hc : c = Char.ofNat 8 := by rw [← h6, Char.ofNat_toNat]
                subst hc
                rw [show escapeChar (Char.ofNat 8) = ['\\', 'b'] from by decide]
                simp only [List.cons_append, List.nil_append]
                rw [parseStringBody_escape 'b' (Char.ofNat 8) _ _ (by decide) (by decide), ih]
                simp
              · by_cases h7 : c.toNat = 12
                · have hc : c = Char.ofNat 12 := by rw [← h7, Char.ofNat_toNat]
                  subst hc
                  rw [show escapeChar (Char.ofNat 12) = ['\\', 'f'] from by decide]
                  simp only [List.cons_append, List.nil_append]
                  rw [parseStringBody_escape 'f' (Char.ofNat 12) _ _ (by decide) (by decide), ih]
                  simp
                · have hb1 : (c == '"') = false := beq_eq_false_iff_ne.mpr h1
                  have hb2 : (c == '\\') = false := beq_eq_false_iff_ne.mpr h2
                  have hb3 : (c == '\n') = false := beq_eq_false_iff_ne.mpr h3
                  have hb4 : (c == '\t') = false := beq_eq_false_iff_ne.mpr h4
                  have hb5 : (c == '\r') = false := beq_eq_false_iff_ne.mpr h5
                  have hb6 : (c.toNat == 8) = false := by simp [h6]
                  have hb7 : (c.toNat == 12) = false := by simp [h7]
                  by_cases h8 : c.toNat < 32
                  · have he : escapeChar c =
                        ['\\', 'u', '0', '0', hexDigit (c.toNat / 16), hexDigit (c.toNat % 16)] := by
                      rw [escapeChar]
                      simp [hb1, hb2, hb3, hb4, hb5, hb6, hb7, h8]
                    rw [he]
                    simp only [List.cons_append, List.nil_append]
                    rw [parseStringBody_uescape '0' '0' (hexDigit (c.toNat / 16))
                      (hexDigit (c.toNat % 16)) 0 0 (c.toNat / 16) (c.toNat % 16) _ _
                      (by decide) (by decide) (hexVal_hexDigit _ (by omega))
                      (hexVal_hexDigit _ (by omega))]
                    rw [show ((0 * 16 + 0) * 16 + c.toNat / 16) * 16 + c.toNat % 16 = c.toNat
                      from by omega]
                    rw [Char.ofNat_toNat, ih]
                    simp
                  · have he : escapeChar c = [c] := by
                      rw [escapeChar]
                      simp [hb1, hb2, hb3, hb4, hb5, hb6, hb7, h8]
                    rw [he]
                    simp only [List.cons_append, List.nil_append]
                    rw [parseStringBody_plain c _ _ hb1 hb2, ih]
                    simp

/-! ## Parser step lemmas (toward C8) -/

/-- `parseValue` on a `null` literal. -/
theorem parseValue_null (fuel : Nat) (cs : List Char) :
    parseValue (fuel + 1) ('n' :: 'u' :: 'l' :: 'l' :: cs) = some (Json.null, cs) := by
  rw [parseValue.eq_def]
  rfl

/-- `parseValue` on a `true` literal. -/
theorem parseValue_true (fuel : Nat) (cs : List Char) :
    parseValue (fuel + 1) ('t' :: 'r' :: 'u' :: 'e' :: cs) = some (Json.bool true, cs) := by
  rw [parseValue.eq_def]
  rfl

/-- `parseValue` on a `false` literal. -/
theorem parseValue_false (fuel : Nat) (cs : List Char) :
    parseValue (fuel + 1) ('f' :: 'a' :: 'l' :: 's' :: 'e' :: cs) =
      some (Json.bool false, cs) := by
  rw [parseValue.eq_def]
  rfl

/-- `parseValue` on a string literal delegates to the body parser. -/
theorem parseValue_str (fuel : Nat) (cs : List Char) :
    parseValue (fuel + 1) ('"' :: cs) =
      (parseStringBody cs []).map (fun p => (Json.str p.1, p.2)) := by
  rw [parseValue.eq_def]
  rfl

/-- `parseValue` on a negative number. -/
theorem parseValue_neg (fuel : Nat) (cs : List Char) :
    parseValue (fuel + 1) ('-' :: cs) =
      (match takeDigits cs with
       | ([], _) => none
       | (ds, rest2) => some (Json.num (-(digitsToNat ds : Int)), rest2)) := by
  rw [parseValue.eq_def]
  rfl

/-- `parseValue` on an array opener. -/
theorem parseValue_arr (fuel : Nat) (cs : List Char) :
    parseValue (fuel + 1) ('[' :: cs) =
      (match skipWs cs with
       | [] => none
       | c2 :: rest2 =>
         if c2 == ']' then some (Json.arr [], rest2)
         else (parseItems fuel (c2 :: rest2)).map (fun p => (Json.arr p.1, p.2))) := by
  rw [parseValue.eq_def]
  rfl

/-- `parseValue` on an object opener. -/
theorem parseValue_obj (fuel : Nat) (cs : List Char) :
    parseValue (fuel + 1) ('\x7b' :: cs) =
      (match skipWs cs with
       | [] => none
       | c2 :: rest2 =>
         if c2 == '\x7d' then some (Json.obj [], rest2)
         else (parseFields fuel (c2 :: rest2)).map
           (fun p => (Json.obj (jsMapOfList p.1), p.2))) := by
  rw [parseValue.eq_def]
  rfl

/-- `parseValue` on a leading digit. -/
theorem parseValue_digit (fuel : Nat) (c : Char) (cs : List Char)
    (h : isDigitChar c = true) :
    parseValue (fuel + 1) (c :: cs) =
      (match takeDigits (c :: cs) with
       | (ds, rest2) => some (Json.num (digitsToNat ds : Int), rest2)) := by
  have hv : 48 ≤ c.toNat ∧ c.toNat ≤ 57 := by simpa [isDigitChar] using h
  have hc : c = Char.ofNat c.toNat := (Char.ofNat_toNat c).symm
  rw [hc]
  obtain ⟨h1, h2⟩ := hv
  set m := c.toNat with hm
  interval_cases m <;> (rw [parseValue.eq_def]; rfl)

/-- One fuel step of `parseItems`. -/
theorem parseItems_succ (fuel : Nat) (cs : List Char) :
    parseItems (fuel + 1) cs =
      (match parseValue fuel cs with
       | none => none
       | some (j, rest) =>
         match skipWs rest with
         | [] => none
         | c :: rest2 =>
           if c == ',' then (parseItems fuel rest2).map (fun p => (j :: p.1, p.2))
           else if c == ']' then some ([j], rest2)
           else none) := by
  rw [parseItems.eq_def]

/-- One fuel step of `parseFields`. -/
theorem parseFields_succ (fuel : Nat) (cs : List Char) :
    parseFields (fuel + 1) cs =
      (match skipWs cs with
       | [] => none
       | c :: rest =>
         if c == '"' then
           match parseStringBody rest [] with
           | none => none
           | some (k, rest1) =>
             match skipWs rest1 with
             | [] => none
             | c2 :: rest2 =>
               if c2 == ':' then
                 match parseValue fuel rest2 with
                 | none => none
                 | some (v, rest3) =>
                   match skipWs rest3 with
                   | [] => none
                   | c3 :: rest4 =>
                     if c3 == ',' then
                       (parseFields fuel rest4).map (fun p => ((k, v) :: p.1, p.2))
                     else if c3 == '\x7d' then some ([(k, v)], rest4)
                     else none
               else none
         else none) := by
  rw [parseFields.eq_def]

/-- Rebuilding a `String` from its character data is the identity. -/
theorem string_eta (s : String) : (⟨s.data⟩ : String) = s := rfl

/-- Every JSON value has positive size. -/
theorem jsize_pos (j : Json) : 1 ≤ jsize j := by
  cases j <;> (rw [jsize]) <;> omega

/-- A non-empty item list has positive size. -/
theorem jsizeItems_pos (x : Json) (xs : List Json) : 1 ≤ jsizeItems (x :: xs) := by
  rw [jsizeItems]
  omega

/-- A non-empty entry list has positive size. -/
theorem jsizeFields_pos (p : String × Json) (ps : List (String × Json)) :
    1 ≤ jsizeFields (p :: ps) := by
  rcases p with ⟨k, v⟩
  rw [jsizeFields]
  omega

/-- `jsMapInsert` of a fresh key appends. -/
theorem jsMapInsert_append (m : List (String × α)) (k : String) (v : α)
    (h : ∀ p ∈ m, p.1 ≠ k) : jsMapInsert m k v = m ++ [(k, v)] := by
  rw [jsMapInsert]
  have hany : (m.any fun p => p.1 == k) = false := by
    rw [List.any_eq_false]
    intro p hp
    simpa using h p hp
  simp [hany]

/-- Folding JS-map insertion over a duplicate-free entry list (disjoint
from the accumulator) just appends. -/
theorem jsMapOfList_go (l : List (String × α)) : ∀ acc : List (String × α),
    nodupKeysFields (mapKeys l) = true →
    (∀ p ∈ l, ∀ q ∈ acc, p.1 ≠ q.1) →
    l.foldl (fun m p => jsMapInsert m p.1 p.2) acc = acc ++ l := by
  induction l with
  | nil => intro acc _ _; simp
  | cons p rest ih =>
    intro acc hnd hdisj
    have hnd' : nodupKeysFields (mapKeys rest) = true ∧
        (mapKeys rest).contains p.1 = false := by
      have : nodupKeysFields (p.1 :: mapKeys rest) = true := by
        simpa [mapKeys] using hnd
      rw [nodupKeysFields] at this
      simp only [Bool.and_eq_true, Bool.not_eq_eq_eq_not, Bool.not_true] at this
      exact ⟨this.2, this.1⟩
    have hfresh : ∀ x ∈ rest, x.1 ≠ p.1 := by
      intro x hx heq
      have h3 : p.1 ∉ mapKeys rest := by simpa using hnd'.2
      exact h3 (List.mem_map.mpr ⟨x, hx, heq⟩)
    rw [List.foldl_cons]
    rw [jsMapInsert_append acc p.1 p.2
      (fun q hq => (hdisj p (by simp) q hq).symm)]
    rw [ih (acc ++ [(p.1, p.2)]) hnd'.1 ?_]
    · simp
    · intro x hx q hq
      rcases List.mem_append.mp hq with hq' | hq'
      · exact hdisj x (by simp [hx]) q hq'
      · simp at hq'
        rw [hq']
        exact hfresh x hx
/-- Rebuilding a parsed duplicate-free field list as a JS object is the
identity. -/
theorem jsMapOfList_self (l : List (String × α))
    (h : nodupKeysFields (mapKeys l) = true) : jsMapOfList l = l := by
  have := jsMapOfList_go l [] h (by intro p hp q hq; cases hq)
  simpa [jsMapOfList] using this

/-- Non-empty serialized item lists start with a value-start character. -/
theorem stringifyItems_head (items : List Json) (h : items ≠ []) :
    ∃ c cs, stringifyItems items = c :: cs ∧ jsonWs c = false ∧
      (c == ']') = false := by
  cases items with
  | nil => exact absurd rfl h
  | cons x xs =>
    obtain ⟨c0, cs0, hx, hws, hnb, _⟩ := stringify_head x
    cases xs with
    | nil =>
      refine ⟨c0, cs0, ?_, hws, hnb⟩
      rw [stringifyItems, hx]
    | cons y ys =>
      refine ⟨c0, cs0 ++ ',' :: stringifyItems (y :: ys), ?_, hws, hnb⟩
      rw [stringifyItems, hx]
      all_goals simp

/-- Non-empty serialized entry lists start with the key's opening
quote. -/
theorem stringifyFields_head (fields : List (String × Json)) (h : fields ≠ []) :
    ∃ cs, stringifyFields fields = '"' :: cs := by
  cases fields with
  | nil => exact absurd rfl h
  | cons p ps =>
    rcases p with ⟨k, v⟩
    cases ps with
    | nil =>
      refine ⟨(k.data.map escapeChar).flatten ++ ['"'] ++ ':' :: stringifyChars v, ?_⟩
      rw [stringifyFields, quoteChars]
      simp
    | cons q qs =>
      refine ⟨(k.data.map escapeChar).flatten ++ ['"'] ++
        (':' :: stringifyChars v ++ ',' :: stringifyFields (q :: qs)), ?_⟩
      rw [stringifyFields, quoteChars]
      all_goals simp

/-- Parsing inverts serialization (joint induction on the parser fuel):
with enough fuel, a serialized value followed by any non-digit-headed
suffix parses back to the value, and serialized item/entry lists followed
by their closing delimiter parse back to the lists. Duplicate-free keys
(an invariant of JS objects) are required so that object reconstruction
is the identity. -/
theorem parse_stringify (fuel : Nat) :
    (∀ (j : Json) (rest : List Char), jsize j ≤ fuel → nodupKeysB j = true →
      (∀ c, rest.head? = some c → isDigitChar c = false) →
      parseValue fuel (stringifyChars j ++ rest) = some (j, rest)) ∧
    (∀ (items : List Json) (rest : List Char), items ≠ [] →
      jsizeItems items ≤ fuel → nodupKeysItems items = true →
      parseItems fuel (stringifyItems items ++ ']' :: rest) = some (items, rest)) ∧
    (∀ (fields : List (String × Json)) (rest : List Char), fields ≠ [] →
      jsizeFields fields ≤ fuel → nodupKeysEntries fields = true →
      parseFields fuel (stringifyFields fields ++ '\x7d' :: rest) =
        some (fields, rest)) := by
  induction fuel with
  | zero =>
    refine ⟨?_, ?_, ?_⟩
    · intro j rest hsz _ _
      have := jsize_pos j
      omega
    · intro items rest hne hsz _
      cases items with
      | nil => exact absurd rfl hne
      | cons x xs => have := jsizeItems_pos x xs; omega
    · intro fields rest hne hsz _
      cases fields with
      | nil => exact absurd rfl hne
      | cons p ps => have := jsizeFields_pos p ps; omega
  | succ fuel ih =>
    obtain ⟨ihV, ihI, ihF⟩ := ih
    refine ⟨?_, ?_, ?_⟩
    · intro j rest hsz hnd hrest
      cases j with
      | null =>
        rw [stringifyChars]
        exact parseValue_null fuel rest
      | bool b =>
        cases b with
        | true =>
          rw [stringifyChars]
          exact parseValue_true fuel rest
        | false =>
          rw [stringifyChars]
          exact parseValue_false fuel rest
      | num n =>
        rw [stringifyChars, intToChars]
        by_cases hn : n < 0
        · simp only [hn, if_true]
          obtain ⟨hne, hdig, hval⟩ := natToChars_spec n.natAbs
          cases hh : natToChars n.natAbs with
          | nil => exact absurd hh hne
          | cons d ds =>
            rw [hh] at hdig hval
            rw [List.cons_append, parseValue_neg]
            rw [takeDigits_append (d :: ds) rest hdig hrest]
            simp only [hval]
            have : -(n.natAbs : Int) = n := by omega
            rw [this]
        · simp only [hn, if_false]
          obtain ⟨hne, hdig, hval⟩ := natToChars_spec n.toNat
          cases hh : natToChars n.toNat with
          | nil => exact absurd hh hne
          | cons d ds =>
            rw [hh] at hdig hval
            have hd : isDigitChar d = true := hdig d (by simp)
            rw [List.cons_append, parseValue_digit fuel d (ds ++ rest) hd]
            rw [show d :: (ds ++ rest) = (d :: ds) ++ rest from by simp]
            rw [takeDigits_append (d :: ds) rest hdig hrest]
            simp only [hval]
            have : (n.toNat : Int) = n := by omega
            rw [this]
      | str s =>
        rw [stringifyChars, quoteChars]
        simp only [List.cons_append, List.append_assoc, List.nil_append]
        rw [parseValue_str]
        rw [parseStringBody_escaped s.data [] rest]
        simp [string_eta]
      | arr items =>
        cases items with
        | nil =>
          rw [stringifyChars, stringifyItems]
          simp only [List.cons_append, List.nil_append]
          rw [parseValue_arr]
          rw [skipWs_cons ']' rest (by decide)]
          simp
        | cons x xs =>
          rw [stringifyChars]
          simp only [List.cons_append, List.append_assoc, List.nil_append]
          rw [parseValue_arr]
          obtain ⟨c0, cs0, hh, hws, hnb⟩ := stringifyItems_head (x :: xs) (by simp)
          rw [hh, List.cons_append, skipWs_cons c0 _ hws]
          simp only [hnb, Bool.false_eq_true, if_false]
          rw [show c0 :: (cs0 ++ ']' :: rest) = stringifyItems (x :: xs) ++ ']' :: rest
            from by rw [hh]; simp]
          rw [ihI (x :: xs) rest (by simp) ?_ ?_]
          · simp
          · rw [jsize] at hsz
            omega
          · rw [nodupKeysB] at hnd
            exact hnd
      | obj fields =>
        cases fields with
        | nil =>
          rw [stringifyChars, stringifyFields]
          simp only [List.cons_append, List.nil_append]
          rw [parseValue_obj]
          rw [skipWs_cons '\x7d' rest (by decide)]
          simp
        | cons p ps =>
          rw [stringifyChars]
          simp only [List.cons_append, List.append_assoc, List.nil_append]
          rw [parseValue_obj]
          obtain ⟨cs0, hh⟩ := stringifyFields_head (p :: ps) (by simp)
          rw [hh, List.cons_append, skipWs_cons '"' _ (by decide)]
          simp only [show ('"' == '\x7d') = false from by decide, Bool.false_eq_true,
            if_false]
          rw [show '"' :: (cs0 ++ '\x7d' :: rest) = stringifyFields (p :: ps) ++ '\x7d' :: rest
            from by rw [hh]; simp]
          rw [nodupKeysB] at hnd
          simp only [Bool.and_eq_true] at hnd
          rw [ihF (p :: ps) rest (by simp) ?_ hnd.2]
          · simp [jsMapOfList_self (p :: ps) hnd.1]
          · rw [jsize] at hsz
            omega
    · intro items rest hne hsz hnd
      cases items with
      | nil => exact absurd rfl hne
      | cons x xs =>
        rw [nodupKeysItems] at hnd
        simp only [Bool.and_eq_true] at hnd
        cases xs with
        | nil =>
          rw [stringifyItems, parseItems_succ]
          rw [ihV x (']' :: rest) ?_ hnd.1
            (by intro c hc; simp at hc; subst hc; decide)]
          · simp +decide [skipWs]
          · rw [jsizeItems, jsizeItems] at hsz
            omega
        | cons y ys =>
          rw [stringifyItems]
          simp only [List.cons_append, List.append_assoc]
          rw [parseItems_succ]
          rw [ihV x (',' :: (stringifyItems (y :: ys) ++ ']' :: rest)) ?_ hnd.1
            (by intro c hc; simp at hc; subst hc; decide)]
          · simp +decide only [skipWs, if_true, if_false]
            rw [ihI (y :: ys) rest (by simp) ?_ hnd.2]
            · simp
            · rw [jsizeItems] at hsz
              omega
          · rw [jsizeItems] at hsz
            omega
          · simp
    · intro fields rest hne hsz hnd
      cases fields with
      | nil => exact absurd rfl hne
      | cons p ps =>
        rcases p with ⟨k, v⟩
        rw [nodupKeysEntries] at hnd
        simp only [Bool.and_eq_true] at hnd
        cases ps with
        | nil =>
          rw [stringifyFields, quoteChars, parseFields_succ]
          simp only [List.cons_append, List.append_assoc, List.nil_append]
          rw [skipWs_cons '"' _ (by decide)]
          simp +decide only [if_true]
          rw [parseStringBody_escaped k.data [] (':' :: (stringifyChars v ++ '\x7d' :: rest))]
          simp +decide only [List.reverse_nil, List.nil_append, string_eta, skipWs,
            if_true, if_false]
          rw [ihV v ('\x7d' :: rest) ?_ hnd.1
            (by intro c hc; simp at hc; subst hc; decide)]
          · simp +decide [skipWs]
          · rw [jsizeFields] at hsz
            omega
        | cons q qs =>
          rw [stringifyFields, quoteChars, parseFields_succ]
          simp only [List.cons_append, List.append_assoc, List.nil_append]
          rw [skipWs_cons '"' _ (by decide)]
          simp +decide only [if_true]
          rw [parseStringBody_escaped k.data []
            (':' :: (stringifyChars v ++ ',' :: (stringifyFields (q :: qs) ++ '\x7d' :: rest)))]
          simp +decide only [List.reverse_nil, List.nil_append, string_eta, skipWs,
            if_true, if_false]
          rw [ihV v (',' :: (stringifyFields (q :: qs) ++ '\x7d' :: rest)) ?_ hnd.1
            (by intro c hc; simp at hc; subst hc; decide)]
          · simp +decide only [skipWs, if_true, if_false]
            rw [ihF (q :: qs) rest (by simp) ?_ hnd.2]
            · simp
            · rw [jsizeFields] at hsz
              omega
          · rw [jsizeFields] at hsz
            omega
          · simp

/-- Serialized length dominates the structural size (fuel adequacy). -/
theorem jsize_le (j : Json) : jsize j ≤ (stringifyChars j).length := by
  refine jsize.induct
    (fun j => jsize j ≤ (stringifyChars j).length)
    (fun fields => jsizeFields fields ≤ (stringifyFields fields).length + 1)
    (fun items => jsizeItems items ≤ (stringifyItems items).length + 1)
    ?_ ?_ ?_ ?_ ?_ ?_ ?_ ?_ ?_ ?_ j
  all_goals beta_reduce
  · rw [jsize, stringifyChars]
    simp
  · intro b
    cases b <;> (rw [jsize, stringifyChars]; simp)
  · intro n
    rw [jsize, stringifyChars, intToChars]
    by_cases hn : n < 0
    · simp [hn]
    · simp only [hn, if_false]
      obtain ⟨hne, _, _⟩ := natToChars_spec n.toNat
      cases hh : natToChars n.toNat with
      | nil => exact absurd hh hne
      | cons d ds => simp
  · intro s
    rw [jsize, stringifyChars, quoteChars]
    simp
  · intro items ih
    rw [jsize, stringifyChars]
    simp only [List.length_append, List.length_cons]
    omega
  · intro fields ih
    rw [jsize, stringifyChars]
    simp only [List.length_append, List.length_cons]
    omega
  · rw [jsizeItems]
    simp
  · intro x xs ihx ihxs
    rw [jsizeItems]
    cases xs with
    | nil =>
      rw [stringifyItems]
      rw [jsizeItems] at ihxs ⊢
      omega
    | cons y ys =>
      rw [stringifyItems]
      simp only [List.length_append, List.length_cons]
      omega
      simp
  · rw [jsizeFields]
    simp
  · intro k v xs ihv ihxs
    rw [jsizeFields]
    cases xs with
    | nil =>
      rw [stringifyFields]
      rw [jsizeFields] at ihxs ⊢
      simp only [List.length_append, List.length_cons]
      omega
    | cons q qs =>
      rw [stringifyFields]
      simp only [List.length_append, List.length_cons]
      omega
      simp

/-- `JSON.parse` inverts the whitespace-free `JSON.stringify` on values
whose objects have duplicate-free keys. -/
theorem stringify_parse (j : Json) (h : nodupKeysB j = true) :
    parseJson ⟨stringifyChars j⟩ = some j := by
  rw [parseJson]
  have hfuel : jsize j ≤ 2 * (stringifyChars j).length + 2 := by
    have := jsize_le j
    omega
  have h1 := (parse_stringify (2 * (stringifyChars j).length + 2)).1 j [] hfuel h
    (by intro c hc; simp at hc)
  rw [List.append_nil] at h1
  have hd : (⟨stringifyChars j⟩ : String).data = stringifyChars j := rfl
  rw [hd, h1]
  simp [skipWs]

/-- C8: `MacroStore.applyParams` serializes the plan, substitutes every
`\x7bparamName\x7d` token whose name is a key of the parameter map with
the supplied value, leaves tokens with unsupplied names verbatim
(replacement text is not rescanned and other characters are copied), and
re-parses the result as a plan; in particular, applying an empty parameter
map returns the plan unchanged — for every stored plan (placeholder-free
or not), since with no parameters every token is kept verbatim and
re-parsing inverts serialization. -/
theorem claimC8_applyParams_substitution :
    (∀ (params : List (String × String)) (key v : String) (rest : List Char),
      key.data ≠ [] → (∀ c ∈ key.data, isWordChar c = true) →
      paramsLookup params key = some v →
      substChars (paramsLookup params) ('\x7b' :: key.data ++ '\x7d' :: rest) =
        v.data ++ substChars (paramsLookup params) rest) ∧
    (∀ (params : List (String × String)) (key : String) (rest : List Char),
      key.data ≠ [] → (∀ c ∈ key.data, isWordChar c = true) →
      paramsLookup params key = none →
      substChars (paramsLookup params) ('\x7b' :: key.data ++ '\x7d' :: rest) =
        '\x7b' :: key.data ++ '\x7d' :: substChars (paramsLookup params) rest) ∧
    (∀ (lookup : String → Option String) (c : Char) (rest : List Char),
      (c == '\x7b') = false →
      substChars lookup (c :: rest) = c :: substChars lookup rest) ∧
    (∀ l : List Char, substChars (paramsLookup []) l = l) ∧
    (∀ plan : Json, nodupKeysB plan = true → applyParams [] plan = some plan) := by
  refine ⟨?_, ?_, ?_, ?_, ?_⟩
  · intro params key v rest hne hword hlk
    have h := substChars_token (paramsLookup params) key.data rest hne hword
    rw [string_eta, hlk] at h
    simpa using h
  · intro params key rest hne hword hlk
    have h := substChars_token (paramsLookup params) key.data rest hne hword
    rw [string_eta, hlk] at h
    simpa [List.append_assoc] using h
  · intro lookup c rest h
    exact substChars_cons_not_brace lookup c rest h
  · intro l
    exact substChars_id_of_none (paramsLookup []) (fun _ => rfl) l
  · intro plan h
    rw [applyParams]
    rw [substChars_id_of_none (paramsLookup []) (fun _ => rfl) (stringifyChars plan)]
    exact stringify_parse plan h

/-- Witness for C8: a supplied token is substituted, an unsupplied one is
kept verbatim, and re-parsing the serialization of the concrete sample
plan under an empty parameter map returns it unchanged. -/
theorem claimC8_applyParams_substitution_witness :
    applyParams [] samplePlan = some samplePlan ∧
    substChars (paramsLookup [("email", "a@b.com")])
      ('\x7b' :: "email".data ++ '\x7d' :: []) = "a@b.com".data ∧
    substChars (paramsLookup [("email", "a@b.com")])
      ('\x7b' :: "otp".data ++ '\x7d' :: []) = '\x7b' :: "otp".data ++ '\x7d' :: [] := by
  have h0 : ∀ lk : String → Option String, substChars lk [] = [] := by
    intro lk
    rw [substChars.eq_def]
  refine ⟨?_, ?_, ?_⟩
  · exact claimC8_applyParams_substitution.2.2.2.2 samplePlan
      (by simp [samplePlan, nodupKeysB, nodupKeysEntries, nodupKeysItems,
        nodupKeysFields, mapKeys])
  · have h := claimC8_applyParams_substitution.1 [("email", "a@b.com")]
      "email" "a@b.com" [] (by decide) (by decide) (by decide)
    rw [h, h0]
    simp
  · have h := claimC8_applyParams_substitution.2.1 [("email", "a@b.com")]
      "otp" [] (by decide) (by decide) (by decide)
    rw [h, h0]

end WebRunner
